import Mathlib

/-!
Verification of the bfup core (tokenizer `lex.rs` + emitter `pre.rs`).

The character stream is modelled as a `List (Except E Char)` (each pulled
item is either a character or an upstream failure of type `E`), the macro
hash map as an association list whose most recent insertion shadows older
ones, and the machine integer `usize` as a `Nat` together with an explicit
64-bit upper bound enforced by the number parser.  The recursive lexer
functions return their result bundled with a proof that they never grow the
remaining input, which is what makes the mutual recursion well-founded.
-/

set_option linter.unusedVariables false
set_option linter.unreachableTactic false
set_option linter.unusedTactic false
set_option linter.unnecessarySeqFocus false

namespace Bfup

/-- Error type of the lexer (`Error<E>` in `lex.rs`).  Every variant except
`Input` carries the line and column numbers recorded when it was built;
delimiter- and group-shape variants additionally carry the configured
delimiter characters, and the two missing-construct variants carry the
configured prefix character. -/
inductive Error (E : Type) : Type where
  | Input : E → Error E
  | DelimiterUnopened : Nat → Nat → Char → Char → Error E
  | DelimiterUnclosed : Nat → Nat → Char → Char → Error E
  | NumberMissing : Nat → Nat → Char → Error E
  | MacroMissing : Nat → Nat → Char → Error E
  | GroupEmpty : Nat → Nat → Char → Char → Error E
  | Group : List (Error E) → Error E

/-- Token enum from `lex.rs`.  `Number` carries the parsed `usize`, modelled
as a `Nat`; the bound of the machine integer is enforced by `parse_usize`. -/
inductive Token : Type where
  | Number : Nat → Token
  | Operator : Char → Token
  | Group : List Token → Token

/-- The role of a configured character (`ConfigField` in `config.rs`). -/
inductive ConfigField : Type where
  | Operator
  | GroupStartDelimiter
  | GroupEndDelimiter
  | NumberPrefix
  | MacroPrefix
  | EscapePrefix
deriving DecidableEq

/-- The symbol configuration (`Config` in `config.rs`), recorded by its six
fields; Rust field names are snake_case, camelCase here. -/
structure Config : Type where
  operators : List Char
  groupStartDelimiter : Char
  groupEndDelimiter : Char
  numberPrefix : Char
  macroPrefix : Char
  escapePrefix : Char

/-- `Config::get_field`: the role of a character.  `Config::new` builds a
hash map from the operators and then the five special characters, rejecting
any collision, so on every constructible `Config` (the five special
characters pairwise distinct and none of them an operator) this if-chain
computes exactly the source's map lookup. -/
def Config.get_field (cfg : Config) (ch : Char) : Option ConfigField :=
  if ch = cfg.groupStartDelimiter then some .GroupStartDelimiter
  else if ch = cfg.groupEndDelimiter then some .GroupEndDelimiter
  else if ch = cfg.numberPrefix then some .NumberPrefix
  else if ch = cfg.macroPrefix then some .MacroPrefix
  else if ch = cfg.escapePrefix then some .EscapePrefix
  else if cfg.operators.contains ch then some .Operator
  else none

/-- `Config::get_value`: the canonical character of a role.  The lexer only
ever queries the four delimiter/prefix roles used in diagnostics; the
`Operator` entry of the source's inverse map depends on hash-map iteration
order and is never read, so it is given an arbitrary fixed value here. -/
def Config.get_value (cfg : Config) : ConfigField → Char
  | .GroupStartDelimiter => cfg.groupStartDelimiter
  | .GroupEndDelimiter => cfg.groupEndDelimiter
  | .NumberPrefix => cfg.numberPrefix
  | .MacroPrefix => cfg.macroPrefix
  | .EscapePrefix => cfg.escapePrefix
  | .Operator => cfg.operators.headD ' '

/-- The default symbol set of `config.rs`: operators `+-<>[].,`, group
delimiters `(` `)`, number sign `#`, definition sign `$`, escape `\`. -/
def default_config : Config :=
  { operators := ['+', '-', '<', '>', '[', ']', '.', ','],
    groupStartDelimiter := '(',
    groupEndDelimiter := ')',
    numberPrefix := '#',
    macroPrefix := '$',
    escapePrefix := '\\' }

/-- The mutable state of a `Lexer<'a, I, E>`: the macro substitution table
(most recent binding first, as the shadowing image of `HashMap::insert`),
the position bookkeeping, and the remaining input of the character
iterator. -/
structure Lexer (E : Type) : Type where
  macro_symbol_table : List (Char × Token)
  lineno : Nat
  colno : Nat
  char_iter : List (Except E Char)

variable {E : Type}

/-- `Lexer::next_char`: pull one item, bumping `colno` unconditionally (also
when the iterator is exhausted or yields a failure) and starting a new line
on a newline character. -/
def next_char (st : Lexer E) : Option (Except (Error E) Char) × Lexer E :=
  match st.char_iter with
  | [] => (none, { st with colno := st.colno + 1 })
  | .ok ch :: rest =>
      if ch = '\n' then
        (some (.ok '\n'), { st with lineno := st.lineno + 1, colno := 0, char_iter := rest })
      else
        (some (.ok ch), { st with colno := st.colno + 1, char_iter := rest })
  | .error e :: rest =>
      (some (.error (.Input e)), { st with colno := st.colno + 1, char_iter := rest })

/-- Position update performed by `next_char` upon consuming character `ch`
at position `(l, c)`. -/
def bump (l c : Nat) (ch : Char) : Nat × Nat :=
  if ch = '\n' then (l + 1, 0) else (l, c + 1)

def next_char_snd_le (st : Lexer E) :
    (next_char st).2.char_iter.length ≤ st.char_iter.length := by
  unfold next_char
  rcases st.char_iter with _ | ⟨x | c, rest⟩ <;> simp <;> split <;> simp

def next_char_some_lt {st st₁ : Lexer E} {r : Except (Error E) Char}
    (h : next_char st = (some r, st₁)) :
    st₁.char_iter.length < st.char_iter.length := by
  unfold next_char at h
  rcases hc : st.char_iter with _ | ⟨x | c, rest⟩ <;> rw [hc] at h <;> simp at h
  · rcases h with ⟨-, h⟩; subst h; simp
  · split at h <;> simp at h <;> rcases h with ⟨-, h⟩ <;> subst h <;> simp

def next_char_none_len {st st₁ : Lexer E}
    (h : next_char st = (none, st₁)) :
    st₁.char_iter.length = st.char_iter.length := by
  unfold next_char at h
  rcases hc : st.char_iter with _ | ⟨x | c, rest⟩ <;> rw [hc] at h <;> simp at h
  · subst h; simp [hc]
  · split at h <;> simp at h

/-- The digit accumulation of `read_number` as a value:
`"d₁…dₖ".parse::<usize>()` succeeds exactly when there is at least one
digit and the denoted value fits in the machine integer. -/
def digits_to_nat (s : List Char) : Nat :=
  s.foldl (fun a c => 10 * a + (c.toNat - '0'.toNat)) 0

/-- `usize::MAX` of the 64-bit targets the crate is built for. -/
def USIZE_MAX : Nat := 2 ^ 64 - 1

/-- `number_string.parse::<usize>()`, on the digit-only strings
`read_number` accumulates: fails on an empty string and on overflow. -/
def parse_usize (s : List Char) : Option Nat :=
  if s ≠ [] ∧ s.all Char.isDigit then
    if digits_to_nat s ≤ USIZE_MAX then some (digits_to_nat s) else none
  else none

/-- The result `read_number` builds once its digit loop stops: `Ok` on a
successful parse, `Error::NumberMissing` at the current position
otherwise. -/
def parse_usize_result (cfg : Config) (st : Lexer E) (number_string : List Char) :
    Except (Error E) Nat :=
  match parse_usize number_string with
  | some number => .ok number
  | none => .error (.NumberMissing st.lineno st.colno cfg.numberPrefix)

/-- The peek guard of `read_number`'s loop: stop before consuming when the
next pulled item would be a non-digit character. -/
def number_peek_stop (input : List (Except E Char)) : Bool :=
  match input with
  | .ok next_ch :: _ => !next_ch.isDigit
  | _ => false

/-- The after-loop epilogue of `Lexer::read_group`: a non-empty local error
list aggregates into `Error::Group`, an empty token list is
`Error::GroupEmpty`, otherwise the group is complete. -/
def read_group_finish (cfg : Config) (st : Lexer E) (group_tokens : List Token)
    (errors : List (Error E)) : Except (Error E) (List Token) × Lexer E :=
  if !errors.isEmpty then (.error (.Group errors), st)
  else if !group_tokens.isEmpty then (.ok group_tokens, st)
  else (.error (.GroupEmpty st.lineno st.colno (cfg.get_value .GroupStartDelimiter)
      (cfg.get_value .GroupEndDelimiter)), st)

def read_group_finish_snd (cfg : Config) (st : Lexer E) (group_tokens : List Token)
    (errors : List (Error E)) : (read_group_finish cfg st group_tokens errors).2 = st := by
  unfold read_group_finish
  split
  · rfl
  · split <;> rfl

mutual

/-- `Lexer::read_token`: pull characters until a token, an error, or the end
of the stream decides the result.  A character bound in the macro table
resolves before any role classification; otherwise the configured role
drives the loop.  The result is paired with the successor state and a proof
that input is consumed (strictly so whenever anything is returned). -/
def read_token (cfg : Config) (st : Lexer E) :
    { p : Option (Except (Error E) Token) × Lexer E //
      p.2.char_iter.length ≤ st.char_iter.length ∧
      (p.1.isSome = true → p.2.char_iter.length < st.char_iter.length) } :=
  match h : next_char st with
  | (none, st₁) =>
      ⟨(none, st₁), ⟨Nat.le_of_eq (next_char_none_len h), fun hs => by simp at hs⟩⟩
  | (some (.error err), st₁) =>
      ⟨(some (.error err), st₁),
        ⟨Nat.le_of_lt (next_char_some_lt h), fun _ => next_char_some_lt h⟩⟩
  | (some (.ok ch), st₁) =>
      match List.lookup ch st₁.macro_symbol_table with
      | some macro_token =>
          ⟨(some (.ok macro_token), st₁),
            ⟨Nat.le_of_lt (next_char_some_lt h), fun _ => next_char_some_lt h⟩⟩
      | none =>
          match cfg.get_field ch with
          | some .EscapePrefix =>
              -- skip the next character, discarding it whatever it is
              match read_token cfg (next_char st₁).2 with
              | ⟨p, hp⟩ =>
                  ⟨p, by
                    have h1 := next_char_some_lt h
                    have h2 := next_char_snd_le st₁
                    have h3 := hp.1
                    exact ⟨by omega, fun _ => by omega⟩⟩
          | some .NumberPrefix =>
              match read_number cfg st₁ [] with
              | ⟨(.ok number, st₂), hp⟩ =>
                  ⟨(some (.ok (.Number number)), st₂), by
                    have h1 := next_char_some_lt h
                    have h3 : st₂.char_iter.length ≤ st₁.char_iter.length := hp
                    exact ⟨Nat.le_of_lt (Nat.lt_of_le_of_lt h3 h1),
                      fun _ => Nat.lt_of_le_of_lt h3 h1⟩⟩
              | ⟨(.error e, st₂), hp⟩ =>
                  ⟨(some (.error e), st₂), by
                    have h1 := next_char_some_lt h
                    have h3 : st₂.char_iter.length ≤ st₁.char_iter.length := hp
                    exact ⟨Nat.le_of_lt (Nat.lt_of_le_of_lt h3 h1),
                      fun _ => Nat.lt_of_le_of_lt h3 h1⟩⟩
          | some .MacroPrefix =>
              match read_macro_definition cfg st₁ with
              | ⟨(.ok u, st₂), hp⟩ =>
                  match read_token cfg st₂ with
                  | ⟨p, hq⟩ =>
                      ⟨p, by
                        have h1 := next_char_some_lt h
                        have h3 : st₂.char_iter.length ≤ st₁.char_iter.length := hp
                        have h4 := hq.1
                        exact ⟨by omega, fun _ => by omega⟩⟩
              | ⟨(.error e, st₂), hp⟩ =>
                  ⟨(some (.error e), st₂), by
                    have h1 := next_char_some_lt h
                    have h3 : st₂.char_iter.length ≤ st₁.char_iter.length := hp
                    exact ⟨Nat.le_of_lt (Nat.lt_of_le_of_lt h3 h1),
                      fun _ => Nat.lt_of_le_of_lt h3 h1⟩⟩
          | some .GroupStartDelimiter =>
              match read_group cfg st₁ [] [] with
              | ⟨(.ok group, st₂), hp⟩ =>
                  ⟨(some (.ok (.Group group)), st₂), by
                    have h1 := next_char_some_lt h
                    have h3 : st₂.char_iter.length ≤ st₁.char_iter.length := hp
                    exact ⟨Nat.le_of_lt (Nat.lt_of_le_of_lt h3 h1),
                      fun _ => Nat.lt_of_le_of_lt h3 h1⟩⟩
              | ⟨(.error e, st₂), hp⟩ =>
                  ⟨(some (.error e), st₂), by
                    have h1 := next_char_some_lt h
                    have h3 : st₂.char_iter.length ≤ st₁.char_iter.length := hp
                    exact ⟨Nat.le_of_lt (Nat.lt_of_le_of_lt h3 h1),
                      fun _ => Nat.lt_of_le_of_lt h3 h1⟩⟩
          | some .GroupEndDelimiter =>
              ⟨(some (.error (.DelimiterUnopened st₁.lineno st₁.colno
                  (cfg.get_value .GroupStartDelimiter) (cfg.get_value .GroupEndDelimiter))),
                  st₁),
                ⟨Nat.le_of_lt (next_char_some_lt h), fun _ => next_char_some_lt h⟩⟩
          | some .Operator =>
              ⟨(some (.ok (.Operator ch)), st₁),
                ⟨Nat.le_of_lt (next_char_some_lt h), fun _ => next_char_some_lt h⟩⟩
          | none =>
              match read_token cfg st₁ with
              | ⟨p, hp⟩ =>
                  ⟨p, by
                    have h1 := next_char_some_lt h
                    have h3 := hp.1
                    exact ⟨by omega, fun _ => by omega⟩⟩
termination_by (st.char_iter.length, 0)
decreasing_by
  all_goals simp_wf
  all_goals first
    | (apply Prod.Lex.right
       omega)
    | (apply Prod.Lex.left
       first
         | (have h1 := next_char_some_lt h
            have h2 := next_char_snd_le st₁
            omega)
         | (have h1 := next_char_some_lt h
            have h3 : st₂.char_iter.length ≤ st₁.char_iter.length := hp
            omega)
         | (have h3 : st₁.char_iter.length < st.char_iter.length := hp.2 rfl
            omega))

/-- `Lexer::read_number`: greedily consume following decimal digits into
`number_string` (peeking so that a non-digit is left unconsumed), then parse
the accumulated string. -/
def read_number (cfg : Config) (st : Lexer E) (number_string : List Char) :
    { p : Except (Error E) Nat × Lexer E //
      p.2.char_iter.length ≤ st.char_iter.length } :=
  if number_peek_stop st.char_iter then
    ⟨(parse_usize_result cfg st number_string, st), Nat.le_refl _⟩
  else
    match h : next_char st with
    | (some (.ok ch), st₁) =>
        match read_number cfg st₁ (number_string ++ [ch]) with
        | ⟨p, hp⟩ =>
            ⟨p, by
              have h1 := next_char_some_lt h
              have h2 := hp
              omega⟩
    | (none, st₁) =>
        ⟨(parse_usize_result cfg st₁ number_string, st₁),
          Nat.le_of_eq (next_char_none_len h)⟩
    | (some (.error err), st₁) =>
        ⟨(.error err, st₁), Nat.le_of_lt (next_char_some_lt h)⟩
termination_by (st.char_iter.length, 0)
decreasing_by
  all_goals simp_wf
  all_goals first
    | (apply Prod.Lex.right
       omega)
    | (apply Prod.Lex.left
       first
         | (have h1 := next_char_some_lt h
            have h2 := next_char_snd_le st₁
            omega)
         | (have h1 := next_char_some_lt h
            have h3 : st₂.char_iter.length ≤ st₁.char_iter.length := hp
            omega)
         | (have h3 : st₁.char_iter.length < st.char_iter.length := hp.2 rfl
            omega))

/-- `Lexer::read_macro_definition`: pull the macro's symbol character, read
one token as its body, and insert the binding into the symbol table.  A
stream that ends before either piece is `Error::MacroMissing`. -/
def read_macro_definition (cfg : Config) (st : Lexer E) :
    { p : Except (Error E) Unit × Lexer E //
      p.2.char_iter.length ≤ st.char_iter.length } :=
  match h : next_char st with
  | (none, st₁) =>
      ⟨(.error (.MacroMissing st₁.lineno st₁.colno cfg.macroPrefix), st₁),
        Nat.le_of_eq (next_char_none_len h)⟩
  | (some (.error err), st₁) =>
      ⟨(.error err, st₁), Nat.le_of_lt (next_char_some_lt h)⟩
  | (some (.ok macro_symbol), st₁) =>
      match read_token cfg st₁ with
      | ⟨(some (.ok macro_token), st₂), hp⟩ =>
          ⟨(.ok (), { st₂ with
              macro_symbol_table := (macro_symbol, macro_token) :: st₂.macro_symbol_table }), by
            have h1 := next_char_some_lt h
            have h3 : st₂.char_iter.length ≤ st₁.char_iter.length := hp.1
            exact Nat.le_of_lt (Nat.lt_of_le_of_lt h3 h1)⟩
      | ⟨(some (.error err), st₂), hp⟩ =>
          ⟨(.error err, st₂), by
            have h1 := next_char_some_lt h
            have h3 : st₂.char_iter.length ≤ st₁.char_iter.length := hp.1
            exact Nat.le_of_lt (Nat.lt_of_le_of_lt h3 h1)⟩
      | ⟨(none, st₂), hp⟩ =>
          ⟨(.error (.MacroMissing st₂.lineno st₂.colno cfg.macroPrefix), st₂), by
            have h1 := next_char_some_lt h
            have h3 : st₂.char_iter.length ≤ st₁.char_iter.length := hp.1
            exact Nat.le_of_lt (Nat.lt_of_le_of_lt h3 h1)⟩
termination_by (st.char_iter.length, 0)
decreasing_by
  all_goals simp_wf
  all_goals first
    | (apply Prod.Lex.right
       omega)
    | (apply Prod.Lex.left
       first
         | (have h1 := next_char_some_lt h
            have h2 := next_char_snd_le st₁
            omega)
         | (have h1 := next_char_some_lt h
            have h3 : st₂.char_iter.length ≤ st₁.char_iter.length := hp
            omega)
         | (have h3 : st₁.char_iter.length < st.char_iter.length := hp.2 rfl
            omega))

/-- The loop of `Lexer::read_group` with its two local accumulators:
successful tokens are appended, an `Error::DelimiterUnopened` result closes
this group, any other error is recorded locally and reading continues, and
end of stream records `Error::DelimiterUnclosed`; `read_group_finish` is
the epilogue after the loop. -/
def read_group (cfg : Config) (st : Lexer E) (group_tokens : List Token)
    (errors : List (Error E)) :
    { p : Except (Error E) (List Token) × Lexer E //
      p.2.char_iter.length ≤ st.char_iter.length } :=
  match read_token cfg st with
  | ⟨(some (.ok token), st₁), hp⟩ =>
      match read_group cfg st₁ (group_tokens ++ [token]) errors with
      | ⟨p, hq⟩ =>
          ⟨p, by
            have h3 : st₁.char_iter.length < st.char_iter.length := hp.2 rfl
            have h2 := hq
            omega⟩
  | ⟨(some (.error (.DelimiterUnopened a b c d)), st₁), hp⟩ =>
      ⟨read_group_finish cfg st₁ group_tokens errors, by
        have h3 : st₁.char_iter.length ≤ st.char_iter.length := hp.1
        rw [read_group_finish_snd]
        exact h3⟩
  | ⟨(some (.error e), st₁), hp⟩ =>
      match read_group cfg st₁ group_tokens (errors ++ [e]) with
      | ⟨p, hq⟩ =>
          ⟨p, by
            have h3 : st₁.char_iter.length < st.char_iter.length := hp.2 rfl
            have h2 := hq
            omega⟩
  | ⟨(none, st₁), hp⟩ =>
      ⟨read_group_finish cfg st₁ group_tokens
          (errors ++ [.DelimiterUnclosed st₁.lineno st₁.colno
            (cfg.get_value .GroupStartDelimiter) (cfg.get_value .GroupEndDelimiter)]), by
        have h3 : st₁.char_iter.length ≤ st.char_iter.length := hp.1
        rw [read_group_finish_snd]
        exact h3⟩
termination_by (st.char_iter.length, 1)
decreasing_by
  all_goals simp_wf
  all_goals first
    | (apply Prod.Lex.right
       omega)
    | (apply Prod.Lex.left
       first
         | (have h1 := next_char_some_lt h
            have h2 := next_char_snd_le st₁
            omega)
         | (have h1 := next_char_some_lt h
            have h3 : st₂.char_iter.length ≤ st₁.char_iter.length := hp
            omega)
         | (have h3 : st₁.char_iter.length < st.char_iter.length := hp.2 rfl
            omega))

end

/-- The loop of `Lexer::read_all_tokens` with its two accumulators: an
`Error::Input` from `read_token` aborts the whole run at once, tokens and
other errors are collected, and at end of stream a non-empty error list
aggregates into `Error::Group`. -/
def read_all_tokens_go (cfg : Config) (st : Lexer E)
    (tokens : List Token) (errors : List (Error E)) : Except (Error E) (List Token) :=
  match read_token cfg st with
  | ⟨(some (.error (.Input e)), _), _⟩ => .error (.Input e)
  | ⟨(some (.ok token), st₁), hp⟩ => read_all_tokens_go cfg st₁ (tokens ++ [token]) errors
  | ⟨(some (.error e), st₁), hp⟩ => read_all_tokens_go cfg st₁ tokens (errors ++ [e])
  | ⟨(none, _), _⟩ => if !errors.isEmpty then .error (.Group errors) else .ok tokens
termination_by st.char_iter.length
decreasing_by
  all_goals simp_wf
  all_goals exact hp.2 rfl

/-- `Lexer::read_all_tokens` on a fresh `Lexer::new` state: empty macro
table, line 1, column 0. -/
def read_all_tokens (cfg : Config) (input : List (Except E Char)) :
    Except (Error E) (List Token) :=
  read_all_tokens_go cfg ⟨[], 1, 0, input⟩ [] []

/-- The pure input streams of the integration tests: every pull succeeds
(`as_char_results!` in the test suite of the crate).  The failure type is
fixed to `Nat` for concrete runs. -/
def as_char_results (s : String) : List (Except Nat Char) :=
  s.toList.map Except.ok

/-- Does the error match `Error::DelimiterUnopened {..}`, the pattern the
group loop intercepts as its own closing delimiter? -/
def is_unopened : Error E → Bool
  | .DelimiterUnopened _ _ _ _ => true
  | _ => false

/-- Does the error match `Error::Input(_)`, the pattern `read_all_tokens`
propagates at once? -/
def is_input : Error E → Bool
  | .Input _ => true
  | _ => false

/-- Is the error an aggregate (`Error::Group`)? -/
def is_aggregate : Error E → Bool
  | .Group _ => true
  | _ => false

mutual

/-- Every `Error::Group` inside the error (itself included) holds a
non-empty list. -/
def aggs_ok : Error E → Bool
  | .Group l => !l.isEmpty && aggs_ok_list l
  | _ => true

def aggs_ok_list : List (Error E) → Bool
  | [] => true
  | e :: rest => aggs_ok e && aggs_ok_list rest

end

mutual

/-- No `Error::DelimiterUnopened` occurs anywhere inside the error, at any
aggregate depth. -/
def unopened_free : Error E → Bool
  | .DelimiterUnopened _ _ _ _ => false
  | .Group l => unopened_free_list l
  | _ => true

def unopened_free_list : List (Error E) → Bool
  | [] => true
  | e :: rest => unopened_free e && unopened_free_list rest

end

/-! ### The emitter (`pre.rs`)

`write_token_iter` is generated twice by `define_write_token_iter!`: once
plain and once with the line-length accumulator of `preprocess_and_align`.
Both walk the token sequence with a local `multiplier` that starts at 1;
output is modelled as the list of characters written. -/

mutual

/-- The loop of the plain `write_token_iter`: `m` is the current value of
the local `multiplier`. -/
def write_token_go : List Token → Nat → List Char
  | [], _ => []
  | .Group g :: rest, m => write_group_repeat g m ++ write_token_go rest 1
  | .Operator c :: rest, m => List.replicate m c ++ write_token_go rest 1
  | .Number n :: rest, _ => write_token_go rest n
termination_by toks m => (sizeOf toks, 0)

/-- `repeat!(write_token_iter(group.iter(), output)?, multiplier)`: the
recursive walk of the whole child sequence, `m` times. -/
def write_group_repeat (g : List Token) : Nat → List Char
  | 0 => []
  | Nat.succ m => write_token_go g 1 ++ write_group_repeat g m
termination_by m => (sizeOf g, m)

end

/-- The plain `write_token_iter` of `preprocess`: local `multiplier`
initialised to 1. -/
def write_token_iter (tokens : List Token) : List Char :=
  write_token_go tokens 1

/-- One operator written `m` times by the aligned `write_token_iter`; after
every single character the shared line length is bumped and, at
`line_max_len`, a line break is written and the counter reset. -/
def write_operator_align (line_max_len : Nat) (c : Char) : Nat → Nat → List Char × Nat
  | 0, line_len => ([], line_len)
  | Nat.succ m, line_len =>
      if line_len + 1 = line_max_len then
        let p := write_operator_align line_max_len c m 0
        (c :: '\n' :: p.1, p.2)
      else
        let p := write_operator_align line_max_len c m (line_len + 1)
        (c :: p.1, p.2)

mutual

/-- The loop of the aligned `write_token_iter`: the second `Nat` is the
shared `line_len` accumulator threaded through every recursive call. -/
def write_token_align_go (line_max_len : Nat) : List Token → Nat → Nat → List Char × Nat
  | [], _, line_len => ([], line_len)
  | .Group g :: rest, m, line_len =>
      let p := write_group_repeat_align line_max_len g m line_len
      let q := write_token_align_go line_max_len rest 1 p.2
      (p.1 ++ q.1, q.2)
  | .Operator c :: rest, m, line_len =>
      let p := write_operator_align line_max_len c m line_len
      let q := write_token_align_go line_max_len rest 1 p.2
      (p.1 ++ q.1, q.2)
  | .Number n :: rest, _, line_len => write_token_align_go line_max_len rest n line_len
termination_by toks m line_len => (sizeOf toks, 0)

/-- The aligned group repetition, threading the shared `line_len` through
all `m` walks of the child sequence. -/
def write_group_repeat_align (line_max_len : Nat) (g : List Token) : Nat → Nat → List Char × Nat
  | 0, line_len => ([], line_len)
  | Nat.succ m, line_len =>
      let p := write_token_align_go line_max_len g 1 line_len
      let q := write_group_repeat_align line_max_len g m p.2
      (p.1 ++ q.1, q.2)
termination_by m line_len => (sizeOf g, m)

end

/-- The aligned `write_token_iter` of `preprocess_and_align`: `multiplier`
1 and `line_len` 0 at the top call. -/
def write_token_iter_align (line_max_len : Nat) (tokens : List Token) : List Char × Nat :=
  write_token_align_go line_max_len tokens 1 0

/-- `pre::preprocess`: tokenize, then emit; a lexing error is returned
unchanged and nothing is emitted. -/
def preprocess (cfg : Config) (input : List (Except E Char)) :
    Except (Error E) (List Char) :=
  match read_all_tokens cfg input with
  | .ok tokens => .ok (write_token_iter tokens)
  | .error e => .error e

/-- `pre::preprocess_and_align`: tokenize, then emit with the line-length
accumulator started at 0. -/
def preprocess_and_align (cfg : Config) (input : List (Except E Char)) (line_width : Nat) :
    Except (Error E) (List Char) :=
  match read_all_tokens cfg input with
  | .ok tokens => .ok (write_token_iter_align line_width tokens).1
  | .error e => .error e

/-- Reference wrapping of a flat character stream: starting from counter
`line_len`, write each character, bump the counter, and insert a line break
(resetting the counter) whenever it reaches `line_max_len`. -/
def wrap_chars (line_max_len : Nat) : List Char → Nat → List Char
  | [], _ => []
  | c :: cs, line_len =>
      if line_len + 1 = line_max_len then c :: '\n' :: wrap_chars line_max_len cs 0
      else c :: wrap_chars line_max_len cs (line_len + 1)

/-- The counter value after `wrap_chars`. -/
def wrap_count (line_max_len : Nat) : List Char → Nat → Nat
  | [], line_len => line_len
  | _ :: cs, line_len =>
      if line_len + 1 = line_max_len then wrap_count line_max_len cs 0
      else wrap_count line_max_len cs (line_len + 1)

/-! ### Well-formed inputs

`Scan` is a grammar of pure (failure-free) inputs, read against the set `S`
of characters currently bound in the macro table.  The control flow of the
lexer depends on the table only through key membership, so the set
suffices.  `Scan cfg m S input S' rest` means: reading from `input` with
bound set `S`, the lexer reaches outcome `m` (a completed token, its own
group-closing delimiter, or a clean end of stream), leaving bound set `S'`
and unread input `rest`.  Group contents are `grp b`, with `b` recording
whether at least one child token was produced. -/

inductive GMode : Type where
  | tok : GMode
  | close : GMode
  | fin : GMode
  | grp : Bool → GMode

/-- The greedy digit scan stops exactly at `r`: its first character, if
any, is not a decimal digit. -/
def digits_stop (r : List Char) : Prop :=
  ∀ c rest, r = c :: rest → c.isDigit = false

inductive Scan (cfg : Config) : GMode → List Char → List Char → List Char → List Char → Prop where
  | bound {S ch r} : ch ∈ S →
      Scan cfg .tok S (ch :: r) S r
  | oper {S ch r} : ch ∉ S → cfg.get_field ch = some .Operator →
      Scan cfg .tok S (ch :: r) S r
  | num {S ch ds r} : ch ∉ S → cfg.get_field ch = some .NumberPrefix →
      ds ≠ [] → ds.all Char.isDigit = true → digits_to_nat ds ≤ USIZE_MAX → digits_stop r →
      Scan cfg .tok S (ch :: (ds ++ r)) S r
  | grp_tok {S ch r S' rest} : ch ∉ S → cfg.get_field ch = some .GroupStartDelimiter →
      Scan cfg (.grp true) S r S' rest →
      Scan cfg .tok S (ch :: r) S' rest
  | skip_tok {S ch r S' rest} : ch ∉ S → cfg.get_field ch = none →
      Scan cfg .tok S r S' rest →
      Scan cfg .tok S (ch :: r) S' rest
  | esc_tok {S ch d r S' rest} : ch ∉ S → cfg.get_field ch = some .EscapePrefix →
      Scan cfg .tok S r S' rest →
      Scan cfg .tok S (ch :: d :: r) S' rest
  | mac_tok {S ch sym r S₁ r₁ S' rest} : ch ∉ S → cfg.get_field ch = some .MacroPrefix →
      Scan cfg .tok S r S₁ r₁ →
      Scan cfg .tok (sym :: S₁) r₁ S' rest →
      Scan cfg .tok S (ch :: sym :: r) S' rest
  | close_base {S ch r} : ch ∉ S → cfg.get_field ch = some .GroupEndDelimiter →
      Scan cfg .close S (ch :: r) S r
  | skip_close {S ch r S' rest} : ch ∉ S → cfg.get_field ch = none →
      Scan cfg .close S r S' rest →
      Scan cfg .close S (ch :: r) S' rest
  | esc_close {S ch d r S' rest} : ch ∉ S → cfg.get_field ch = some .EscapePrefix →
      Scan cfg .close S r S' rest →
      Scan cfg .close S (ch :: d :: r) S' rest
  | mac_close {S ch sym r S₁ r₁ S' rest} : ch ∉ S → cfg.get_field ch = some .MacroPrefix →
      Scan cfg .tok S r S₁ r₁ →
      Scan cfg .close (sym :: S₁) r₁ S' rest →
      Scan cfg .close S (ch :: sym :: r) S' rest
  | fin_nil {S} : Scan cfg .fin S [] S []
  | fin_esc {S ch} : ch ∉ S → cfg.get_field ch = some .EscapePrefix →
      Scan cfg .fin S [ch] S []
  | skip_fin {S ch r S'} : ch ∉ S → cfg.get_field ch = none →
      Scan cfg .fin S r S' [] →
      Scan cfg .fin S (ch :: r) S' []
  | esc_fin {S ch d r S'} : ch ∉ S → cfg.get_field ch = some .EscapePrefix →
      Scan cfg .fin S r S' [] →
      Scan cfg .fin S (ch :: d :: r) S' []
  | mac_fin {S ch sym r S₁ r₁ S'} : ch ∉ S → cfg.get_field ch = some .MacroPrefix →
      Scan cfg .tok S r S₁ r₁ →
      Scan cfg .fin (sym :: S₁) r₁ S' [] →
      Scan cfg .fin S (ch :: sym :: r) S' []
  | grp_close {S input S' rest} : Scan cfg .close S input S' rest →
      Scan cfg (.grp false) S input S' rest
  | grp_cons {S input S₁ r₁ b S' rest} :
      Scan cfg .tok S input S₁ r₁ →
      Scan cfg (.grp b) S₁ r₁ S' rest →
      Scan cfg (.grp true) S input S' rest

/-- A whole input scans cleanly at top level: a sequence of complete tokens
followed by a clean end of stream. -/
inductive ScanAll (cfg : Config) : List Char → List Char → Prop where
  | fin {S input S'} : Scan cfg .fin S input S' [] → ScanAll cfg S input
  | cons {S input S₁ r} : Scan cfg .tok S input S₁ r → ScanAll cfg S₁ r →
      ScanAll cfg S input

/-- The macro table realises exactly the bound set `S`. -/
def keys_match (tbl : List (Char × Token)) (S : List Char) : Prop :=
  ∀ ch : Char, (List.lookup ch tbl).isSome = true ↔ ch ∈ S

/-! ### Step lemmas

One lemma per branch of the lexer loops, characterising `(… ).val` on the
shape of the pending input.  All later proofs go through these. -/

theorem next_char_nil (tbl : List (Char × Token)) (l c : Nat) :
    next_char (⟨tbl, l, c, []⟩ : Lexer E) = (none, ⟨tbl, l, c + 1, []⟩) := rfl

theorem next_char_ok (tbl : List (Char × Token)) (l c : Nat) (ch : Char)
    (r : List (Except E Char)) :
    next_char ⟨tbl, l, c, .ok ch :: r⟩
      = (some (.ok ch), ⟨tbl, (bump l c ch).1, (bump l c ch).2, r⟩) := by
  simp only [next_char, bump]
  by_cases hch : ch = '\n' <;> simp [hch]

theorem next_char_error (tbl : List (Char × Token)) (l c : Nat) (e : E)
    (r : List (Except E Char)) :
    next_char ⟨tbl, l, c, .error e :: r⟩
      = (some (.error (.Input e)), ⟨tbl, l, c + 1, r⟩) := rfl

theorem read_token_val_nil (cfg : Config) (tbl : List (Char × Token)) (l c : Nat) :
    (read_token cfg (⟨tbl, l, c, []⟩ : Lexer E)).val = (none, ⟨tbl, l, c + 1, []⟩) := by
  rw [read_token]
  split <;> rename_i h <;> rw [next_char_nil] at h <;> simp_all

theorem read_token_val_input_error (cfg : Config) (tbl : List (Char × Token)) (l c : Nat)
    (e : E) (r : List (Except E Char)) :
    (read_token cfg ⟨tbl, l, c, .error e :: r⟩).val
      = (some (.error (.Input e)), ⟨tbl, l, c + 1, r⟩) := by
  rw [read_token]
  split <;> rename_i h <;> rw [next_char_error] at h <;> simp_all

theorem read_token_val_bound (cfg : Config) {tbl : List (Char × Token)} {ch : Char}
    {tok : Token} (hm : List.lookup ch tbl = some tok) (l c : Nat)
    (r : List (Except E Char)) :
    (read_token cfg ⟨tbl, l, c, .ok ch :: r⟩).val
      = (some (.ok tok), ⟨tbl, (bump l c ch).1, (bump l c ch).2, r⟩) := by
  rw [read_token]
  split
  · rename_i st1 h
    rw [next_char_ok] at h
    exact absurd h (by simp)
  · rename_i err st1 h
    rw [next_char_ok] at h
    exact absurd h (by simp)
  · rename_i ch1 st1 h
    rw [next_char_ok] at h
    simp only [Prod.mk.injEq, Option.some.injEq, Except.ok.injEq] at h
    obtain ⟨rfl, rfl⟩ := h
    simp [hm]

theorem read_token_val_operator (cfg : Config) {tbl : List (Char × Token)} {ch : Char}
    (hm : List.lookup ch tbl = none) (hf : cfg.get_field ch = some .Operator)
    (l c : Nat) (r : List (Except E Char)) :
    (read_token cfg ⟨tbl, l, c, .ok ch :: r⟩).val
      = (some (.ok (.Operator ch)), ⟨tbl, (bump l c ch).1, (bump l c ch).2, r⟩) := by
  rw [read_token]
  split
  · rename_i st1 h
    rw [next_char_ok] at h
    exact absurd h (by simp)
  · rename_i err st1 h
    rw [next_char_ok] at h
    exact absurd h (by simp)
  · rename_i ch1 st1 h
    rw [next_char_ok] at h
    simp only [Prod.mk.injEq, Option.some.injEq, Except.ok.injEq] at h
    obtain ⟨rfl, rfl⟩ := h
    simp [hm, hf]

theorem read_token_val_group_end (cfg : Config) {tbl : List (Char × Token)} {ch : Char}
    (hm : List.lookup ch tbl = none) (hf : cfg.get_field ch = some .GroupEndDelimiter)
    (l c : Nat) (r : List (Except E Char)) :
    (read_token cfg ⟨tbl, l, c, .ok ch :: r⟩).val
      = (some (.error (.DelimiterUnopened (bump l c ch).1 (bump l c ch).2
          (cfg.get_value .GroupStartDelimiter) (cfg.get_value .GroupEndDelimiter))),
         ⟨tbl, (bump l c ch).1, (bump l c ch).2, r⟩) := by
  rw [read_token]
  split
  · rename_i st1 h
    rw [next_char_ok] at h
    exact absurd h (by simp)
  · rename_i err st1 h
    rw [next_char_ok] at h
    exact absurd h (by simp)
  · rename_i ch1 st1 h
    rw [next_char_ok] at h
    simp only [Prod.mk.injEq, Option.some.injEq, Except.ok.injEq] at h
    obtain ⟨rfl, rfl⟩ := h
    simp [hm, hf]

theorem read_token_val_skip (cfg : Config) {tbl : List (Char × Token)} {ch : Char}
    (hm : List.lookup ch tbl = none) (hf : cfg.get_field ch = none)
    (l c : Nat) (r : List (Except E Char)) :
    (read_token cfg ⟨tbl, l, c, .ok ch :: r⟩).val
      = (read_token cfg ⟨tbl, (bump l c ch).1, (bump l c ch).2, r⟩).val := by
  rw [read_token]
  split
  · rename_i st1 h
    rw [next_char_ok] at h
    exact absurd h (by simp)
  · rename_i err st1 h
    rw [next_char_ok] at h
    exact absurd h (by simp)
  · rename_i ch1 st1 h
    rw [next_char_ok] at h
    simp only [Prod.mk.injEq, Option.some.injEq, Except.ok.injEq] at h
    obtain ⟨rfl, rfl⟩ := h
    simp [hm, hf]

theorem read_token_val_escape_ok (cfg : Config) {tbl : List (Char × Token)} {ch : Char}
    (hm : List.lookup ch tbl = none) (hf : cfg.get_field ch = some .EscapePrefix)
    (l c : Nat) (d : Char) (r : List (Except E Char)) :
    (read_token cfg ⟨tbl, l, c, .ok ch :: .ok d :: r⟩).val
      = (read_token cfg ⟨tbl, (bump (bump l c ch).1 (bump l c ch).2 d).1,
          (bump (bump l c ch).1 (bump l c ch).2 d).2, r⟩).val := by
  rw [read_token]
  split
  · rename_i st1 h
    rw [next_char_ok] at h
    exact absurd h (by simp)
  · rename_i err st1 h
    rw [next_char_ok] at h
    exact absurd h (by simp)
  · rename_i ch1 st1 h
    rw [next_char_ok] at h
    simp only [Prod.mk.injEq, Option.some.injEq, Except.ok.injEq] at h
    obtain ⟨rfl, rfl⟩ := h
    simp only [hm, hf]
    rw [next_char_ok]

theorem read_token_val_escape_input_error (cfg : Config) {tbl : List (Char × Token)}
    {ch : Char} (hm : List.lookup ch tbl = none)
    (hf : cfg.get_field ch = some .EscapePrefix) (l c : Nat) (e : E)
    (r : List (Except E Char)) :
    (read_token cfg ⟨tbl, l, c, .ok ch :: .error e :: r⟩).val
      = (read_token cfg ⟨tbl, (bump l c ch).1, (bump l c ch).2 + 1, r⟩).val := by
  rw [read_token]
  split
  · rename_i st1 h
    rw [next_char_ok] at h
    exact absurd h (by simp)
  · rename_i err st1 h
    rw [next_char_ok] at h
    exact absurd h (by simp)
  · rename_i ch1 st1 h
    rw [next_char_ok] at h
    simp only [Prod.mk.injEq, Option.some.injEq, Except.ok.injEq] at h
    obtain ⟨rfl, rfl⟩ := h
    simp [hm, hf, next_char_error]

theorem read_token_val_escape_nil (cfg : Config) {tbl : List (Char × Token)} {ch : Char}
    (hm : List.lookup ch tbl = none) (hf : cfg.get_field ch = some .EscapePrefix)
    (l c : Nat) :
    (read_token cfg (⟨tbl, l, c, [.ok ch]⟩ : Lexer E)).val
      = (read_token cfg (⟨tbl, (bump l c ch).1, (bump l c ch).2 + 1, []⟩ : Lexer E)).val := by
  rw [read_token]
  split
  · rename_i st1 h
    rw [next_char_ok] at h
    exact absurd h (by simp)
  · rename_i err st1 h
    rw [next_char_ok] at h
    exact absurd h (by simp)
  · rename_i ch1 st1 h
    rw [next_char_ok] at h
    simp only [Prod.mk.injEq, Option.some.injEq, Except.ok.injEq] at h
    obtain ⟨rfl, rfl⟩ := h
    simp [hm, hf, next_char_nil]

theorem read_token_val_number (cfg : Config) {tbl : List (Char × Token)} {ch : Char}
    (hm : List.lookup ch tbl = none) (hf : cfg.get_field ch = some .NumberPrefix)
    (l c : Nat) (r : List (Except E Char)) :
    (read_token cfg ⟨tbl, l, c, .ok ch :: r⟩).val
      = (match (read_number cfg ⟨tbl, (bump l c ch).1, (bump l c ch).2, r⟩ []).val with
         | (.ok n, st₂) => (some (.ok (.Number n)), st₂)
         | (.error e, st₂) => (some (.error e), st₂)) := by
  rw [read_token]
  split
  · rename_i st1 h
    rw [next_char_ok] at h
    exact absurd h (by simp)
  · rename_i err st1 h
    rw [next_char_ok] at h
    exact absurd h (by simp)
  · rename_i ch1 st1 h
    rw [next_char_ok] at h
    simp only [Prod.mk.injEq, Option.some.injEq, Except.ok.injEq] at h
    obtain ⟨rfl, rfl⟩ := h
    simp only [hm, hf]
    rcases hq : read_number cfg ⟨tbl, (bump l c ch).1, (bump l c ch).2, r⟩ []
      with ⟨⟨res, stq⟩, hpp⟩
    rcases res <;> simp

theorem read_token_val_macrodef (cfg : Config) {tbl : List (Char × Token)} {ch : Char}
    (hm : List.lookup ch tbl = none) (hf : cfg.get_field ch = some .MacroPrefix)
    (l c : Nat) (r : List (Except E Char)) :
    (read_token cfg ⟨tbl, l, c, .ok ch :: r⟩).val
      = (match (read_macro_definition cfg ⟨tbl, (bump l c ch).1, (bump l c ch).2, r⟩).val with
         | (.ok _, st₂) => (read_token cfg st₂).val
         | (.error e, st₂) => (some (.error e), st₂)) := by
  rw [read_token]
  split
  · rename_i st1 h
    rw [next_char_ok] at h
    exact absurd h (by simp)
  · rename_i err st1 h
    rw [next_char_ok] at h
    exact absurd h (by simp)
  · rename_i ch1 st1 h
    rw [next_char_ok] at h
    simp only [Prod.mk.injEq, Option.some.injEq, Except.ok.injEq] at h
    obtain ⟨rfl, rfl⟩ := h
    simp only [hm, hf]
    rcases hq : read_macro_definition cfg ⟨tbl, (bump l c ch).1, (bump l c ch).2, r⟩
      with ⟨⟨res, stq⟩, hpp⟩
    rcases res with e | u
    · simp
    · rcases hq2 : read_token cfg stq with ⟨p, hpq⟩
      simp

theorem read_token_val_group (cfg : Config) {tbl : List (Char × Token)} {ch : Char}
    (hm : List.lookup ch tbl = none) (hf : cfg.get_field ch = some .GroupStartDelimiter)
    (l c : Nat) (r : List (Except E Char)) :
    (read_token cfg ⟨tbl, l, c, .ok ch :: r⟩).val
      = (match (read_group cfg ⟨tbl, (bump l c ch).1, (bump l c ch).2, r⟩ [] []).val with
         | (.ok g, st₂) => (some (.ok (.Group g)), st₂)
         | (.error e, st₂) => (some (.error e), st₂)) := by
  rw [read_token]
  split
  · rename_i st1 h
    rw [next_char_ok] at h
    exact absurd h (by simp)
  · rename_i err st1 h
    rw [next_char_ok] at h
    exact absurd h (by simp)
  · rename_i ch1 st1 h
    rw [next_char_ok] at h
    simp only [Prod.mk.injEq, Option.some.injEq, Except.ok.injEq] at h
    obtain ⟨rfl, rfl⟩ := h
    simp only [hm, hf]
    rcases hq : read_group cfg ⟨tbl, (bump l c ch).1, (bump l c ch).2, r⟩ [] []
      with ⟨⟨res, stq⟩, hpp⟩
    rcases res <;> simp

theorem read_number_val_nondigit (cfg : Config) (tbl : List (Char × Token)) (l c : Nat)
    {d : Char} (hd : d.isDigit = false) (r : List (Except E Char))
    (acc : List Char) :
    (read_number cfg ⟨tbl, l, c, .ok d :: r⟩ acc).val
      = (parse_usize_result cfg ⟨tbl, l, c, .ok d :: r⟩ acc, ⟨tbl, l, c, .ok d :: r⟩) := by
  rw [read_number]
  simp [number_peek_stop, hd]

theorem read_number_val_digit (cfg : Config) (tbl : List (Char × Token)) (l c : Nat)
    {d : Char} (hd : d.isDigit = true) (r : List (Except E Char)) (acc : List Char) :
    (read_number cfg ⟨tbl, l, c, .ok d :: r⟩ acc).val
      = (read_number cfg ⟨tbl, l, c + 1, r⟩ (acc ++ [d])).val := by
  have hd' : ¬ d = '\n' := by
    intro hh; subst hh; simp [Char.isDigit] at hd
  rw [read_number]
  simp only [number_peek_stop, hd, Bool.not_true, if_neg, Bool.false_eq_true,
    not_false_eq_true]
  split
  · rename_i ch1 st1 h
    rw [next_char_ok] at h
    simp only [Prod.mk.injEq, Option.some.injEq, Except.ok.injEq] at h
    obtain ⟨rfl, rfl⟩ := h
    simp only [bump]
    rw [if_neg hd']
  · rename_i st1 h
    rw [next_char_ok] at h
    exact absurd h (by simp)
  · rename_i err st1 h
    rw [next_char_ok] at h
    exact absurd h (by simp)

theorem read_number_val_nil (cfg : Config) (tbl : List (Char × Token)) (l c : Nat)
    (acc : List Char) :
    (read_number cfg (⟨tbl, l, c, []⟩ : Lexer E) acc).val
      = (parse_usize_result cfg ⟨tbl, l, c + 1, []⟩ acc, ⟨tbl, l, c + 1, []⟩) := by
  rw [read_number]
  simp only [number_peek_stop, if_neg, Bool.false_eq_true, not_false_eq_true]
  split
  · rename_i ch1 st1 h
    rw [next_char_nil] at h
    exact absurd h (by simp)
  · rename_i st1 h
    rw [next_char_nil] at h
    simp only [Prod.mk.injEq] at h
    obtain ⟨-, rfl⟩ := h
    simp
  · rename_i err st1 h
    rw [next_char_nil] at h
    exact absurd h (by simp)

theorem read_number_val_input_error (cfg : Config) (tbl : List (Char × Token)) (l c : Nat)
    (e : E) (r : List (Except E Char)) (acc : List Char) :
    (read_number cfg ⟨tbl, l, c, .error e :: r⟩ acc).val
      = (.error (.Input e), ⟨tbl, l, c + 1, r⟩) := by
  rw [read_number]
  simp only [number_peek_stop, if_neg, Bool.false_eq_true, not_false_eq_true]
  split
  · rename_i ch1 st1 h
    rw [next_char_error] at h
    exact absurd h (by simp)
  · rename_i st1 h
    rw [next_char_error] at h
    exact absurd h (by simp)
  · rename_i err st1 h
    rw [next_char_error] at h
    simp only [Prod.mk.injEq, Option.some.injEq, Except.error.injEq] at h
    obtain ⟨rfl, rfl⟩ := h
    simp

theorem read_macro_definition_val_nil (cfg : Config) (tbl : List (Char × Token))
    (l c : Nat) :
    (read_macro_definition cfg (⟨tbl, l, c, []⟩ : Lexer E)).val
      = (.error (.MacroMissing l (c + 1) cfg.macroPrefix), ⟨tbl, l, c + 1, []⟩) := by
  rw [read_macro_definition]
  split
  · rename_i st1 h
    rw [next_char_nil] at h
    simp only [Prod.mk.injEq] at h
    obtain ⟨-, rfl⟩ := h
    simp
  · rename_i err st1 h
    rw [next_char_nil] at h
    exact absurd h (by simp)
  · rename_i sym st1 h
    rw [next_char_nil] at h
    exact absurd h (by simp)

theorem read_macro_definition_val_input_error (cfg : Config) (tbl : List (Char × Token))
    (l c : Nat) (e : E) (r : List (Except E Char)) :
    (read_macro_definition cfg ⟨tbl, l, c, .error e :: r⟩).val
      = (.error (.Input e), ⟨tbl, l, c + 1, r⟩) := by
  rw [read_macro_definition]
  split
  · rename_i st1 h
    rw [next_char_error] at h
    exact absurd h (by simp)
  · rename_i err st1 h
    rw [next_char_error] at h
    simp only [Prod.mk.injEq, Option.some.injEq, Except.error.injEq] at h
    obtain ⟨rfl, rfl⟩ := h
    simp
  · rename_i sym st1 h
    rw [next_char_error] at h
    exact absurd h (by simp)

theorem read_macro_definition_val_cons (cfg : Config) (tbl : List (Char × Token))
    (l c : Nat) (sym : Char) (r : List (Except E Char)) :
    (read_macro_definition cfg ⟨tbl, l, c, .ok sym :: r⟩).val
      = (match (read_token cfg ⟨tbl, (bump l c sym).1, (bump l c sym).2, r⟩).val with
         | (some (.ok tok), st₂) =>
             (.ok (), { st₂ with macro_symbol_table := (sym, tok) :: st₂.macro_symbol_table })
         | (some (.error e), st₂) => (.error e, st₂)
         | (none, st₂) => (.error (.MacroMissing st₂.lineno st₂.colno cfg.macroPrefix), st₂)) := by
  rw [read_macro_definition]
  split
  · rename_i st1 h
    rw [next_char_ok] at h
    exact absurd h (by simp)
  · rename_i err st1 h
    rw [next_char_ok] at h
    exact absurd h (by simp)
  · rename_i sym1 st1 h
    rw [next_char_ok] at h
    simp only [Prod.mk.injEq, Option.some.injEq, Except.ok.injEq] at h
    obtain ⟨rfl, rfl⟩ := h
    rcases hq : read_token cfg ⟨tbl, (bump l c sym).1, (bump l c sym).2, r⟩
      with ⟨⟨res, stq⟩, hpp⟩
    rcases res with _ | (e | t) <;> simp

theorem read_group_val_token (cfg : Config) {st st₁ : Lexer E} {tok : Token}
    (hts : (read_token cfg st).val = (some (.ok tok), st₁))
    (group_tokens : List Token) (errors : List (Error E)) :
    (read_group cfg st group_tokens errors).val
      = (read_group cfg st₁ (group_tokens ++ [tok]) errors).val := by
  rcases hq : read_token cfg st with ⟨⟨res, st1⟩, hpp⟩
  have hv : (res, st1) = (some (.ok tok), st₁) := by rw [← hts, hq]
  simp only [Prod.mk.injEq] at hv
  obtain ⟨rfl, rfl⟩ := hv
  rw [read_group, hq]

theorem read_group_val_close (cfg : Config) {st st₁ : Lexer E} {a b : Nat} {c d : Char}
    (hts : (read_token cfg st).val = (some (.error (.DelimiterUnopened a b c d)), st₁))
    (group_tokens : List Token) (errors : List (Error E)) :
    (read_group cfg st group_tokens errors).val
      = read_group_finish cfg st₁ group_tokens errors := by
  rcases hq : read_token cfg st with ⟨⟨res, st1⟩, hpp⟩
  have hv : (res, st1) = (some (.error (.DelimiterUnopened a b c d)), st₁) := by
    rw [← hts, hq]
  simp only [Prod.mk.injEq] at hv
  obtain ⟨rfl, rfl⟩ := hv
  rw [read_group, hq]

theorem read_group_val_err (cfg : Config) {st st₁ : Lexer E} {e : Error E}
    (hts : (read_token cfg st).val = (some (.error e), st₁))
    (hu : is_unopened e = false)
    (group_tokens : List Token) (errors : List (Error E)) :
    (read_group cfg st group_tokens errors).val
      = (read_group cfg st₁ group_tokens (errors ++ [e])).val := by
  rcases hq : read_token cfg st with ⟨⟨res, st1⟩, hpp⟩
  have hv : (res, st1) = (some (.error e), st₁) := by rw [← hts, hq]
  simp only [Prod.mk.injEq] at hv
  obtain ⟨rfl, rfl⟩ := hv
  rw [read_group, hq]
  cases e <;> simp_all [is_unopened]

theorem read_group_val_none (cfg : Config) {st st₁ : Lexer E}
    (hts : (read_token cfg st).val = (none, st₁))
    (group_tokens : List Token) (errors : List (Error E)) :
    (read_group cfg st group_tokens errors).val
      = read_group_finish cfg st₁ group_tokens
          (errors ++ [.DelimiterUnclosed st₁.lineno st₁.colno
            (cfg.get_value .GroupStartDelimiter) (cfg.get_value .GroupEndDelimiter)]) := by
  rcases hq : read_token cfg st with ⟨⟨res, st1⟩, hpp⟩
  have hv : (res, st1) = (none, st₁) := by rw [← hts, hq]
  simp only [Prod.mk.injEq] at hv
  obtain ⟨rfl, rfl⟩ := hv
  rw [read_group, hq]

theorem read_all_go_input (cfg : Config) {st st₁ : Lexer E} {e : E}
    (hts : (read_token cfg st).val = (some (.error (.Input e)), st₁))
    (tokens : List Token) (errors : List (Error E)) :
    read_all_tokens_go cfg st tokens errors = .error (.Input e) := by
  rcases hq : read_token cfg st with ⟨⟨res, st1⟩, hpp⟩
  have hv : (res, st1) = (some (.error (.Input e)), st₁) := by rw [← hts, hq]
  simp only [Prod.mk.injEq] at hv
  obtain ⟨rfl, rfl⟩ := hv
  rw [read_all_tokens_go, hq]

theorem read_all_go_token (cfg : Config) {st st₁ : Lexer E} {tok : Token}
    (hts : (read_token cfg st).val = (some (.ok tok), st₁))
    (tokens : List Token) (errors : List (Error E)) :
    read_all_tokens_go cfg st tokens errors
      = read_all_tokens_go cfg st₁ (tokens ++ [tok]) errors := by
  rcases hq : read_token cfg st with ⟨⟨res, st1⟩, hpp⟩
  have hv : (res, st1) = (some (.ok tok), st₁) := by rw [← hts, hq]
  simp only [Prod.mk.injEq] at hv
  obtain ⟨rfl, rfl⟩ := hv
  rw [read_all_tokens_go, hq]

theorem read_all_go_err (cfg : Config) {st st₁ : Lexer E} {e : Error E}
    (hts : (read_token cfg st).val = (some (.error e), st₁))
    (hi : is_input e = false)
    (tokens : List Token) (errors : List (Error E)) :
    read_all_tokens_go cfg st tokens errors
      = read_all_tokens_go cfg st₁ tokens (errors ++ [e]) := by
  rcases hq : read_token cfg st with ⟨⟨res, st1⟩, hpp⟩
  have hv : (res, st1) = (some (.error e), st₁) := by rw [← hts, hq]
  simp only [Prod.mk.injEq] at hv
  obtain ⟨rfl, rfl⟩ := hv
  rw [read_all_tokens_go, hq]
  cases e <;> simp_all [is_input]

theorem read_all_go_none (cfg : Config) {st st₁ : Lexer E}
    (hts : (read_token cfg st).val = (none, st₁))
    (tokens : List Token) (errors : List (Error E)) :
    read_all_tokens_go cfg st tokens errors
      = if !errors.isEmpty then .error (.Group errors) else .ok tokens := by
  rcases hq : read_token cfg st with ⟨⟨res, st1⟩, hpp⟩
  have hv : (res, st1) = (none, st₁) := by rw [← hts, hq]
  simp only [Prod.mk.injEq] at hv
  obtain ⟨rfl, rfl⟩ := hv
  rw [read_all_tokens_go, hq]

/-! ### Emitter lemmas -/

theorem write_group_repeat_eq (g : List Token) (m : Nat) :
    write_group_repeat g m = (List.replicate m (write_token_go g 1)).flatten := by
  induction m with
  | zero => simp [write_group_repeat]
  | succ k ih => simp [write_group_repeat, ih, List.replicate_succ]

theorem write_token_go_append_number (xs : List Token) (k : Nat) :
    ∀ m, write_token_go (xs ++ [.Number k]) m = write_token_go xs m := by
  induction xs with
  | nil => intro m; simp [write_token_go]
  | cons t rest ih =>
      intro m
      cases t <;> simp [write_token_go, ih]

theorem wrap_chars_append (w : Nat) (xs ys : List Char) :
    ∀ ll, wrap_chars w (xs ++ ys) ll
      = wrap_chars w xs ll ++ wrap_chars w ys (wrap_count w xs ll) := by
  induction xs with
  | nil => intro ll; simp [wrap_chars, wrap_count]
  | cons x xs ih =>
      intro ll
      simp only [List.cons_append, wrap_chars, wrap_count]
      split <;> simp [ih]

theorem wrap_count_append (w : Nat) (xs ys : List Char) :
    ∀ ll, wrap_count w (xs ++ ys) ll = wrap_count w ys (wrap_count w xs ll) := by
  induction xs with
  | nil => intro ll; simp [wrap_count]
  | cons x xs ih =>
      intro ll
      simp only [List.cons_append, wrap_count]
      split <;> simp [ih]

theorem write_operator_align_spec (w : Nat) (c : Char) (m : Nat) :
    ∀ ll, write_operator_align w c m ll
      = (wrap_chars w (List.replicate m c) ll, wrap_count w (List.replicate m c) ll) := by
  induction m with
  | zero => intro ll; simp [write_operator_align, wrap_chars, wrap_count]
  | succ k ih =>
      intro ll
      simp only [write_operator_align, List.replicate_succ, wrap_chars, wrap_count]
      split <;> simp [ih]

theorem write_align_wrap (w : Nat) (toks : List Token) (m ll : Nat) :
    write_token_align_go w toks m ll
      = (wrap_chars w (write_token_go toks m) ll,
         wrap_count w (write_token_go toks m) ll) := by
  refine write_token_align_go.induct w
    (fun toks m ll => write_token_align_go w toks m ll
      = (wrap_chars w (write_token_go toks m) ll,
         wrap_count w (write_token_go toks m) ll))
    (fun g m ll => write_group_repeat_align w g m ll
      = (wrap_chars w (write_group_repeat g m) ll,
         wrap_count w (write_group_repeat g m) ll))
    ?_ ?_ ?_ ?_ ?_ ?_ toks m ll
  · intro x ll
    simp [write_token_align_go, write_token_go, wrap_chars, wrap_count]
  · intro g rest m ll p ih1 ih2
    simp only [write_token_align_go, write_token_go]
    rw [wrap_chars_append, wrap_count_append]
    simp only [p] at ih1 ih2 ⊢
    rw [ih1] at ih2 ⊢
    simp [ih2]
  · intro c rest m ll p ih
    simp only [write_token_align_go, write_token_go]
    rw [wrap_chars_append, wrap_count_append]
    have hop := write_operator_align_spec w c m ll
    simp only [p] at ih ⊢
    rw [hop] at ih ⊢
    simp [ih]
  · intro n rest x ll ih
    simp [write_token_align_go, write_token_go, ih]
  · intro g ll
    simp [write_group_repeat_align, write_group_repeat, wrap_chars, wrap_count]
  · intro g m ll p ih1 ih2
    simp only [write_group_repeat_align, write_group_repeat]
    rw [wrap_chars_append, wrap_count_append]
    simp only [p] at ih1 ih2 ⊢
    rw [ih1] at ih2 ⊢
    simp [ih2]

/-- C4: emitting `Group(children)` under multiplier `m` writes the whole
child emission (its walk from the start, with a fresh multiplier 1) `m`
times, and the sibling tokens after the group are emitted with the
multiplier reset to 1; a trailing `Number` inside the group never leaks
upward. -/
theorem C4_group_multiplier :
    (∀ (g rest : List Token) (m : Nat),
        write_token_go (.Group g :: rest) m
          = (List.replicate m (write_token_iter g)).flatten ++ write_token_go rest 1) ∧
    (∀ (g rest : List Token) (m k : Nat),
        write_token_go (.Group (g ++ [.Number k]) :: rest) m
          = write_token_go (.Group g :: rest) m) := by
  constructor
  · intro g rest m
    simp [write_token_go, write_group_repeat_eq, write_token_iter]
  · intro g rest m k
    simp [write_token_go, write_group_repeat_eq, write_token_iter,
      write_token_go_append_number]

/-- C8: a `Number n` immediately followed by `Number k` emits exactly as if
only `Number k` were present (the second multiplier overwrites the first,
with no accumulation and no error), in the plain and in the aligned
emitter. -/
theorem C8_number_overwrite :
    (∀ (rest : List Token) (n k m : Nat),
        write_token_go (.Number n :: .Number k :: rest) m
          = write_token_go (.Number k :: rest) m) ∧
    (∀ (w : Nat) (rest : List Token) (n k m ll : Nat),
        write_token_align_go w (.Number n :: .Number k :: rest) m ll
          = write_token_align_go w (.Number k :: rest) m ll) := by
  constructor
  · intro rest n k m
    simp [write_token_go]
  · intro w rest n k m ll
    simp [write_token_align_go]

/-- C5: wrapping uses one line-length counter shared across all recursion
levels: the aligned emission of any token sequence (counter started at 0)
equals the plain emission post-processed by `wrap_chars`, which breaks the
flat operator stream after every `w`-th character; and concretely,
preprocessing `"#6(#6(+))"` at width 6 gives six newline-terminated lines
of six `+`. -/
theorem C5_shared_line_counter :
    (∀ (w : Nat) (tokens : List Token),
        write_token_iter_align w tokens
          = (wrap_chars w (write_token_iter tokens) 0,
             wrap_count w (write_token_iter tokens) 0)) ∧
    preprocess_and_align default_config (as_char_results "#6(#6(+))") 6
      = .ok "++++++\n++++++\n++++++\n++++++\n++++++\n++++++\n".toList := by
  constructor
  · intro w tokens
    simp [write_token_iter_align, write_token_iter, write_align_wrap]
  · simp [preprocess_and_align, read_all_tokens, read_all_tokens_go, read_token, read_group,
      read_group_finish, read_number, number_peek_stop, parse_usize_result, parse_usize,
      digits_to_nat, USIZE_MAX, next_char, Config.get_field, Config.get_value, default_config,
      as_char_results, write_token_iter_align, write_token_align_go, write_group_repeat_align,
      write_operator_align]

/-- C3: a character bound in the macro table resolves to the bound token
before any role classification: `read_token` returns the binding with no
assumption at all on `cfg.get_field ch`, so the configured role of the
character (operator, prefix, delimiter, …) is irrelevant once it is
bound. -/
theorem C3_macro_binding_wins {E : Type} (cfg : Config) {tbl : List (Char × Token)}
    {ch : Char} {tok : Token} (hm : List.lookup ch tbl = some tok) (l c : Nat)
    (r : List (Except E Char)) :
    (read_token cfg ⟨tbl, l, c, .ok ch :: r⟩).val
      = (some (.ok tok), ⟨tbl, (bump l c ch).1, (bump l c ch).2, r⟩) :=
  read_token_val_bound cfg hm l c r

theorem C3_witness :
    (read_token default_config
        (⟨[(')', Token.Operator '+')], 1, 0, [Except.ok ')']⟩ : Lexer Nat)).val
      = (some (.ok (Token.Operator '+')), ⟨[(')', Token.Operator '+')], 1, 1, []⟩)
    ∧ default_config.get_field ')' = some ConfigField.GroupEndDelimiter := by
  constructor
  · have h := C3_macro_binding_wins (E := Nat) default_config
      (show List.lookup ')' [(')', Token.Operator '+')] = some (Token.Operator '+') by simp)
      1 0 []
    simpa [bump] using h
  · rfl

theorem read_number_val_digits (cfg : Config) (ds : List Char) :
    ∀ (h2 : ds.all Char.isDigit = true) (tbl : List (Char × Token)) (l c : Nat)
      (r : List (Except E Char)) (acc : List Char),
    (read_number cfg ⟨tbl, l, c, ds.map Except.ok ++ r⟩ acc).val
      = (read_number cfg ⟨tbl, l, c + ds.length, r⟩ (acc ++ ds)).val := by
  induction ds with
  | nil => intro h2 tbl l c r acc; simp
  | cons d ds ih =>
      intro h2 tbl l c r acc
      simp only [List.all_cons, Bool.and_eq_true] at h2
      simp only [List.map_cons, List.cons_append]
      rw [read_number_val_digit cfg tbl l c h2.1 _ acc]
      rw [ih h2.2 tbl l (c + 1) r (acc ++ [d])]
      have hc : c + 1 + ds.length = c + (d :: ds).length := by simp; omega
      rw [hc]
      simp

/-- C9 (amended): a number prefix followed by zero decimal digits yields
`Error::NumberMissing` carrying the configured number-prefix character and
produces no token.  The recorded position is the prefix's own position
when a non-digit character follows the prefix, but one column past the
prefix when the stream ends right after it (the final `next_char` pull
bumps `colno` even when it returns nothing). -/
theorem C9_missing_number :
    (∀ {E : Type} (cfg : Config) {tbl : List (Char × Token)} {ch : Char}
        (hm : List.lookup ch tbl = none) (hf : cfg.get_field ch = some .NumberPrefix)
        (l c : Nat) {d : Char} (hd : d.isDigit = false) (r : List (Except E Char)),
      (read_token cfg ⟨tbl, l, c, .ok ch :: .ok d :: r⟩).val
        = (some (.error (.NumberMissing (bump l c ch).1 (bump l c ch).2 cfg.numberPrefix)),
           ⟨tbl, (bump l c ch).1, (bump l c ch).2, .ok d :: r⟩)) ∧
    (∀ {E : Type} (cfg : Config) {tbl : List (Char × Token)} {ch : Char}
        (hm : List.lookup ch tbl = none) (hf : cfg.get_field ch = some .NumberPrefix)
        (l c : Nat),
      (read_token cfg (⟨tbl, l, c, [.ok ch]⟩ : Lexer E)).val
        = (some (.error (.NumberMissing (bump l c ch).1 ((bump l c ch).2 + 1)
            cfg.numberPrefix)),
           ⟨tbl, (bump l c ch).1, (bump l c ch).2 + 1, []⟩)) := by
  constructor
  · intro E cfg tbl ch hm hf l c d hd r
    rw [read_token_val_number cfg hm hf l c (.ok d :: r)]
    rw [read_number_val_nondigit cfg tbl (bump l c ch).1 (bump l c ch).2 hd r []]
    simp [parse_usize_result, parse_usize]
  · intro E cfg tbl ch hm hf l c
    rw [read_token_val_number cfg hm hf l c []]
    rw [read_number_val_nil]
    simp [parse_usize_result, parse_usize]

theorem C9_counterexample :
    read_all_tokens default_config (as_char_results "#")
      = .error (.Group [.NumberMissing 1 2 '#']) ∧
    read_all_tokens default_config (as_char_results "#a")
      = .error (.Group [.NumberMissing 1 1 '#']) := by
  constructor <;>
    simp [read_all_tokens, read_all_tokens_go, read_token, read_number, number_peek_stop,
      parse_usize_result, parse_usize, digits_to_nat, USIZE_MAX, next_char,
      Config.get_field, default_config, as_char_results]

theorem C9_witness :
    (read_token default_config
        (⟨[], 1, 0, [Except.ok '#', Except.ok 'a']⟩ : Lexer Nat)).val
      = (some (.error (.NumberMissing 1 1 '#')), ⟨[], 1, 1, [Except.ok 'a']⟩) ∧
    (read_token default_config (⟨[], 1, 0, [Except.ok '#']⟩ : Lexer Nat)).val
      = (some (.error (.NumberMissing 1 2 '#')), ⟨[], 1, 2, []⟩) := by
  constructor
  · have h := C9_missing_number.1 (E := Nat) default_config
      (show List.lookup '#' ([] : List (Char × Token)) = none by simp)
      (show Config.get_field default_config '#' = some .NumberPrefix by decide) 1 0
      (show Char.isDigit 'a' = false by decide) []
    simpa [bump, default_config] using h
  · have h := C9_missing_number.2 (E := Nat) default_config
      (show List.lookup '#' ([] : List (Char × Token)) = none by simp)
      (show Config.get_field default_config '#' = some .NumberPrefix by decide) 1 0
    simpa [bump, default_config] using h

/-- C10: a number prefix followed by digits whose decimal value exceeds
`usize::MAX` yields the same `Error::NumberMissing` as a missing number:
the digits are consumed, no `Number` token is produced, and the value is
never wrapped or truncated. -/
theorem C10_number_overflow {E : Type} (cfg : Config) {tbl : List (Char × Token)}
    {ch : Char} (hm : List.lookup ch tbl = none)
    (hf : cfg.get_field ch = some .NumberPrefix) (l c : Nat) {ds : List Char}
    (h1 : ds ≠ []) (h2 : ds.all Char.isDigit = true)
    (h3 : USIZE_MAX < digits_to_nat ds) {r : List (Except E Char)}
    (hr : r = [] ∨ ∃ x rr, r = .ok x :: rr ∧ x.isDigit = false) :
    ∃ l2 c2, (read_token cfg ⟨tbl, l, c, .ok ch :: (ds.map Except.ok ++ r)⟩).val
      = (some (.error (.NumberMissing l2 c2 cfg.numberPrefix)), ⟨tbl, l2, c2, r⟩) := by
  rw [read_token_val_number cfg hm hf l c (ds.map Except.ok ++ r)]
  rw [read_number_val_digits cfg ds h2 tbl (bump l c ch).1 (bump l c ch).2 r []]
  rcases hr with rfl | ⟨x, rr, rfl, hx⟩
  · rw [read_number_val_nil]
    refine ⟨(bump l c ch).1, (bump l c ch).2 + ds.length + 1, ?_⟩
    simp [parse_usize_result, parse_usize, h1, h2, Nat.not_le.mpr h3]
  · rw [read_number_val_nondigit cfg tbl _ _ hx rr ([] ++ ds)]
    refine ⟨(bump l c ch).1, (bump l c ch).2 + ds.length, ?_⟩
    simp [parse_usize_result, parse_usize, h1, h2, Nat.not_le.mpr h3]

theorem C10_witness :
    USIZE_MAX < digits_to_nat "99999999999999999999".toList ∧
    (∃ l2 c2, (read_token default_config
        (⟨[], 1, 0, (Except.ok '#') :: ("99999999999999999999".toList.map Except.ok)⟩
          : Lexer Nat)).val
      = (some (.error (.NumberMissing l2 c2 '#')), ⟨[], l2, c2, []⟩)) := by
  refine ⟨by decide, ?_⟩
  have h := C10_number_overflow (E := Nat) default_config
    (show List.lookup '#' ([] : List (Char × Token)) = none by simp)
    (show Config.get_field default_config '#' = some .NumberPrefix by decide) 1 0
    (show "99999999999999999999".toList ≠ [] by decide)
    (show ("99999999999999999999".toList).all Char.isDigit = true by decide)
    (show USIZE_MAX < digits_to_nat "99999999999999999999".toList by decide)
    (show ([] : List (Except Nat Char)) = []
        ∨ ∃ x rr, ([] : List (Except Nat Char)) = .ok x :: rr ∧ x.isDigit = false
      from Or.inl rfl)
  simpa [default_config] using h

theorem aggs_ok_list_iff {l : List (Error E)} :
    aggs_ok_list l = true ↔ ∀ x ∈ l, aggs_ok x = true := by
  induction l with
  | nil => simp [aggs_ok_list]
  | cons x xs ih => simp [aggs_ok_list, ih]

theorem unopened_free_list_iff {l : List (Error E)} :
    unopened_free_list l = true ↔ ∀ x ∈ l, unopened_free x = true := by
  induction l with
  | nil => simp [unopened_free_list]
  | cons x xs ih => simp [unopened_free_list, ih]

/-- Joint invariant of the lexer loops, by strong induction on the length
of the pending input: every error produced by `read_token`, `read_number`
or `read_macro_definition` has only non-empty aggregates inside and is
either itself `DelimiterUnopened` or free of `DelimiterUnopened` at every
depth, and every error produced by `read_group` from an accumulator of
clean errors has only non-empty aggregates and no `DelimiterUnopened` at
any depth (the group loop consumes that variant as its close signal
instead of recording it). -/
theorem lex_err_invariant {E : Type} (cfg : Config) :
    ∀ n : Nat, ∀ st : Lexer E, st.char_iter.length ≤ n →
      ((∀ e st', (read_token cfg st).val = (some (.error e), st') →
          aggs_ok e = true ∧ (is_unopened e = true ∨ unopened_free e = true)) ∧
       (∀ acc e st', (read_number cfg st acc).val = (.error e, st') →
          aggs_ok e = true ∧ (is_unopened e = true ∨ unopened_free e = true)) ∧
       (∀ e st', (read_macro_definition cfg st).val = (.error e, st') →
          aggs_ok e = true ∧ (is_unopened e = true ∨ unopened_free e = true)) ∧
       (∀ group_tokens errors e st',
          (∀ x ∈ errors, aggs_ok x = true ∧ unopened_free x = true) →
          (read_group cfg st group_tokens errors).val = (.error e, st') →
          aggs_ok e = true ∧ unopened_free e = true)) := by
  intro n
  induction n using Nat.strong_induction_on with
  | _ n IH =>
  intro st hst
  obtain ⟨tbl, l, c, input⟩ := st
  change input.length ≤ n at hst
  have Htok : ∀ e st',
      (read_token cfg (⟨tbl, l, c, input⟩ : Lexer E)).val = (some (.error e), st') →
      aggs_ok e = true ∧ (is_unopened e = true ∨ unopened_free e = true) := by
    intro e st' h
    rcases input with _ | ⟨x, r⟩
    · rw [read_token_val_nil] at h
      simp at h
    · have hrn : r.length < n := by simp at hst; omega
      rcases x with e₀ | ch
      · rw [read_token_val_input_error] at h
        simp only [Prod.mk.injEq, Option.some.injEq, Except.error.injEq] at h
        obtain ⟨rfl, -⟩ := h
        simp [aggs_ok, is_unopened, unopened_free]
      · rcases hlk : List.lookup ch tbl with _ | tok
        · rcases hgf : cfg.get_field ch with _ | fld
          · rw [read_token_val_skip cfg hlk hgf] at h
            exact (IH r.length hrn ⟨tbl, (bump l c ch).1, (bump l c ch).2, r⟩
              (by simp)).1 e st' h
          · cases fld with
            | EscapePrefix =>
                rcases r with _ | ⟨y, r'⟩
                · rw [read_token_val_escape_nil cfg hlk hgf] at h
                  rw [read_token_val_nil] at h
                  simp at h
                · rcases y with e₀ | d
                  · rw [read_token_val_escape_input_error cfg hlk hgf] at h
                    exact (IH r'.length (by simp at hst; omega)
                      ⟨tbl, (bump l c ch).1, (bump l c ch).2 + 1, r'⟩ (by simp)).1 e st' h
                  · rw [read_token_val_escape_ok cfg hlk hgf] at h
                    exact (IH r'.length (by simp at hst; omega)
                      ⟨tbl, (bump (bump l c ch).1 (bump l c ch).2 d).1,
                        (bump (bump l c ch).1 (bump l c ch).2 d).2, r'⟩ (by simp)).1 e st' h
            | NumberPrefix =>
                rw [read_token_val_number cfg hlk hgf] at h
                rcases hq : (read_number cfg
                    (⟨tbl, (bump l c ch).1, (bump l c ch).2, r⟩ : Lexer E) []).val
                  with ⟨res, stq⟩
                rw [hq] at h
                rcases res with e₁ | m
                · simp only [Prod.mk.injEq, Option.some.injEq, Except.error.injEq] at h
                  obtain ⟨rfl, -⟩ := h
                  exact (IH r.length hrn ⟨tbl, (bump l c ch).1, (bump l c ch).2, r⟩
                    (by simp)).2.1 [] e₁ stq hq
                · simp at h
            | MacroPrefix =>
                rw [read_token_val_macrodef cfg hlk hgf] at h
                rcases hq : (read_macro_definition cfg
                    (⟨tbl, (bump l c ch).1, (bump l c ch).2, r⟩ : Lexer E)).val
                  with ⟨res, stq⟩
                rw [hq] at h
                rcases res with e₁ | u
                · simp only [Prod.mk.injEq, Option.some.injEq, Except.error.injEq] at h
                  obtain ⟨rfl, -⟩ := h
                  exact (IH r.length hrn ⟨tbl, (bump l c ch).1, (bump l c ch).2, r⟩
                    (by simp)).2.2.1 e₁ stq hq
                · have hle : stq.char_iter.length ≤ r.length := by
                    have hp := (read_macro_definition cfg
                      (⟨tbl, (bump l c ch).1, (bump l c ch).2, r⟩ : Lexer E)).property
                    rw [hq] at hp
                    simpa using hp
                  exact (IH r.length hrn stq hle).1 e st' h
            | GroupStartDelimiter =>
                rw [read_token_val_group cfg hlk hgf] at h
                rcases hq : (read_group cfg
                    (⟨tbl, (bump l c ch).1, (bump l c ch).2, r⟩ : Lexer E) [] []).val
                  with ⟨res, stq⟩
                rw [hq] at h
                rcases res with e₁ | g
                · simp only [Prod.mk.injEq, Option.some.injEq, Except.error.injEq] at h
                  obtain ⟨rfl, -⟩ := h
                  have hg := (IH r.length hrn ⟨tbl, (bump l c ch).1, (bump l c ch).2, r⟩
                    (by simp)).2.2.2 [] [] e₁ stq (by intro x hx; simp at hx) hq
                  exact ⟨hg.1, Or.inr hg.2⟩
                · simp at h
            | GroupEndDelimiter =>
                rw [read_token_val_group_end cfg hlk hgf] at h
                simp only [Prod.mk.injEq, Option.some.injEq, Except.error.injEq] at h
                obtain ⟨rfl, -⟩ := h
                simp [aggs_ok, is_unopened]
            | Operator =>
                rw [read_token_val_operator cfg hlk hgf] at h
                simp at h
        · rw [read_token_val_bound cfg hlk] at h
          simp at h
  have Hnum : ∀ acc e st',
      (read_number cfg (⟨tbl, l, c, input⟩ : Lexer E) acc).val = (.error e, st') →
      aggs_ok e = true ∧ (is_unopened e = true ∨ unopened_free e = true) := by
    intro acc e st' h
    rcases input with _ | ⟨x, r⟩
    · rw [read_number_val_nil] at h
      unfold parse_usize_result at h
      rcases hp : parse_usize acc with _ | m <;> rw [hp] at h
      · simp only [Prod.mk.injEq, Except.error.injEq] at h
        obtain ⟨rfl, -⟩ := h
        simp [aggs_ok, is_unopened, unopened_free]
      · simp at h
    · rcases x with e₀ | d
      · rw [read_number_val_input_error] at h
        simp only [Prod.mk.injEq, Except.error.injEq] at h
        obtain ⟨rfl, -⟩ := h
        simp [aggs_ok, is_unopened, unopened_free]
      · rcases hd : d.isDigit with _ | _
        · rw [read_number_val_nondigit cfg tbl l c hd] at h
          unfold parse_usize_result at h
          rcases hp : parse_usize acc with _ | m <;> rw [hp] at h
          · simp only [Prod.mk.injEq, Except.error.injEq] at h
            obtain ⟨rfl, -⟩ := h
            simp [aggs_ok, is_unopened, unopened_free]
          · simp at h
        · rw [read_number_val_digit cfg tbl l c hd] at h
          exact (IH r.length (by simp at hst; omega) ⟨tbl, l, c + 1, r⟩
            (by simp)).2.1 (acc ++ [d]) e st' h
  have Hrmd : ∀ e st',
      (read_macro_definition cfg (⟨tbl, l, c, input⟩ : Lexer E)).val = (.error e, st') →
      aggs_ok e = true ∧ (is_unopened e = true ∨ unopened_free e = true) := by
    intro e st' h
    rcases input with _ | ⟨x, r⟩
    · rw [read_macro_definition_val_nil] at h
      simp only [Prod.mk.injEq, Except.error.injEq] at h
      obtain ⟨rfl, -⟩ := h
      simp [aggs_ok, is_unopened, unopened_free]
    · rcases x with e₀ | sym
      · rw [read_macro_definition_val_input_error] at h
        simp only [Prod.mk.injEq, Except.error.injEq] at h
        obtain ⟨rfl, -⟩ := h
        simp [aggs_ok, is_unopened, unopened_free]
      · rw [read_macro_definition_val_cons] at h
        rcases hq : (read_token cfg
            (⟨tbl, (bump l c sym).1, (bump l c sym).2, r⟩ : Lexer E)).val
          with ⟨res, stq⟩
        rw [hq] at h
        rcases res with _ | (e₁ | t)
        · simp only [Prod.mk.injEq, Except.error.injEq] at h
          obtain ⟨rfl, -⟩ := h
          simp [aggs_ok, is_unopened, unopened_free]
        · simp only [Prod.mk.injEq, Except.error.injEq] at h
          obtain ⟨rfl, -⟩ := h
          exact (IH r.length (by simp at hst; omega)
            ⟨tbl, (bump l c sym).1, (bump l c sym).2, r⟩ (by simp)).1 e₁ stq hq
        · simp at h
  have Hgroup : ∀ (group_tokens : List Token) (errors : List (Error E)) e st',
      (∀ x ∈ errors, aggs_ok x = true ∧ unopened_free x = true) →
      (read_group cfg (⟨tbl, l, c, input⟩ : Lexer E) group_tokens errors).val
        = (.error e, st') →
      aggs_ok e = true ∧ unopened_free e = true := by
    intro group_tokens errors e st' hclean h
    rcases hq : (read_token cfg (⟨tbl, l, c, input⟩ : Lexer E)).val with ⟨res, st₁⟩
    rcases res with _ | (e₁ | tok)
    · rw [read_group_val_none cfg hq group_tokens errors] at h
      simp only [read_group_finish] at h
      rw [if_pos (by simp)] at h
      simp only [Prod.mk.injEq, Except.error.injEq] at h
      obtain ⟨rfl, -⟩ := h
      have hfin : ∀ x ∈ errors ++ [(.DelimiterUnclosed st₁.lineno st₁.colno
          (cfg.get_value .GroupStartDelimiter) (cfg.get_value .GroupEndDelimiter) : Error E)],
          aggs_ok x = true ∧ unopened_free x = true := by
        intro x hx
        rcases List.mem_append.mp hx with hx | hx
        · exact hclean x hx
        · simp at hx
          subst hx
          simp [aggs_ok, unopened_free]
      constructor
      · simp only [aggs_ok, Bool.and_eq_true]
        exact ⟨by simp, aggs_ok_list_iff.mpr fun x hx => (hfin x hx).1⟩
      · simp only [unopened_free]
        exact unopened_free_list_iff.mpr fun x hx => (hfin x hx).2
    · have he₁ := Htok e₁ st₁ hq
      rcases hu : is_unopened e₁ with _ | _
      · rw [read_group_val_err cfg hq hu group_tokens errors] at h
        have hst₁ : st₁.char_iter.length < input.length := by
          have hp := (read_token cfg (⟨tbl, l, c, input⟩ : Lexer E)).property
          rw [hq] at hp
          simpa using hp.2 (by simp)
        have hclean2 : ∀ x ∈ errors ++ [e₁],
            aggs_ok x = true ∧ unopened_free x = true := by
          intro x hx
          rcases List.mem_append.mp hx with hx | hx
          · exact hclean x hx
          · simp at hx
            subst hx
            rcases he₁.2 with hz | hz
            · rw [hz] at hu; simp at hu
            · exact ⟨he₁.1, hz⟩
        exact (IH st₁.char_iter.length (by omega) st₁ le_rfl).2.2.2
          group_tokens (errors ++ [e₁]) e st' hclean2 h
      · obtain ⟨a, b, cc, dd, rfl⟩ : ∃ a b cc dd, e₁ = .DelimiterUnopened a b cc dd := by
          cases e₁ <;> simp [is_unopened] at hu ⊢
        rw [read_group_val_close cfg hq group_tokens errors] at h
        simp only [read_group_finish] at h
        split at h
        · simp only [Prod.mk.injEq, Except.error.injEq] at h
          obtain ⟨rfl, -⟩ := h
          rename_i hne
          constructor
          · simp only [aggs_ok, Bool.and_eq_true]
            exact ⟨by simpa using hne, aggs_ok_list_iff.mpr fun x hx => (hclean x hx).1⟩
          · simp only [unopened_free]
            exact unopened_free_list_iff.mpr fun x hx => (hclean x hx).2
        · split at h
          · simp at h
          · simp only [Prod.mk.injEq, Except.error.injEq] at h
            obtain ⟨rfl, -⟩ := h
            simp [aggs_ok, unopened_free]
    · rw [read_group_val_token cfg hq group_tokens errors] at h
      have hst₁ : st₁.char_iter.length < input.length := by
        have hp := (read_token cfg (⟨tbl, l, c, input⟩ : Lexer E)).property
        rw [hq] at hp
        simpa using hp.2 (by simp)
      exact (IH st₁.char_iter.length (by omega) st₁ le_rfl).2.2.2
        (group_tokens ++ [tok]) errors e st' hclean h
  exact ⟨Htok, Hnum, Hrmd, Hgroup⟩

theorem read_group_err_unopened_free {E : Type} (cfg : Config) (st : Lexer E)
    (group_tokens : List Token) (errors : List (Error E))
    (hclean : ∀ x ∈ errors, aggs_ok x = true ∧ unopened_free x = true)
    (e : Error E) (st' : Lexer E)
    (h : (read_group cfg st group_tokens errors).val = (.error e, st')) :
    unopened_free e = true :=
  ((lex_err_invariant cfg st.char_iter.length st le_rfl).2.2.2
    group_tokens errors e st' hclean h).2

/-- Every error ever returned by the read-all loop from a clean error
accumulator has only non-empty aggregates at every depth. -/
theorem read_all_go_aggs_ok {E : Type} (cfg : Config) :
    ∀ n : Nat, ∀ st : Lexer E, st.char_iter.length ≤ n →
    ∀ (tokens : List Token) (errors : List (Error E)),
    (∀ x ∈ errors, aggs_ok x = true) →
    ∀ e, read_all_tokens_go cfg st tokens errors = .error e → aggs_ok e = true := by
  intro n
  induction n using Nat.strong_induction_on with
  | _ n IH =>
  intro st hst tokens errors hclean e h
  rcases hq : (read_token cfg st).val with ⟨res, st₁⟩
  have hlt : res.isSome = true → st₁.char_iter.length < st.char_iter.length := by
    intro hs
    have hp := (read_token cfg st).property
    rw [hq] at hp
    simpa using hp.2 (by simpa using hs)
  rcases res with _ | (e₁ | tok)
  · rw [read_all_go_none cfg hq tokens errors] at h
    split at h
    · simp only [Except.error.injEq] at h
      subst h
      simp only [aggs_ok, Bool.and_eq_true]
      rename_i hne
      exact ⟨by simpa using hne, aggs_ok_list_iff.mpr hclean⟩
    · simp at h
  · have he₁ := (lex_err_invariant cfg st.char_iter.length st le_rfl).1 e₁ st₁ hq
    rcases hi : is_input e₁ with _ | _
    · rw [read_all_go_err cfg hq hi tokens errors] at h
      have hcl2 : ∀ x ∈ errors ++ [e₁], aggs_ok x = true := by
        intro x hx
        rcases List.mem_append.mp hx with hx | hx
        · exact hclean x hx
        · simp at hx; subst hx; exact he₁.1
      exact IH st₁.char_iter.length
        (by have := hlt (by simp); omega) st₁ le_rfl tokens (errors ++ [e₁]) hcl2 e h
    · obtain ⟨e₀, rfl⟩ : ∃ e₀, e₁ = .Input e₀ := by
        cases e₁ <;> simp [is_input] at hi ⊢
      rw [read_all_go_input cfg hq tokens errors] at h
      simp only [Except.error.injEq] at h
      subst h
      simp [aggs_ok]
  · rw [read_all_go_token cfg hq tokens errors] at h
    exact IH st₁.char_iter.length
      (by have := hlt (by simp); omega) st₁ le_rfl (tokens ++ [tok]) errors hclean e h

/-- C1 (amended): an `Error::Input` surfacing from `read_token` at the top
level is returned by the read-all loop at once, discarding every token and
recoverable error collected so far.  But the failure is not always fatal:
a failure pulled as the character discarded after an escape prefix is
itself silently discarded and scanning continues, and a failure surfacing
inside a group is pushed onto the group's local error list (ending up
inside its aggregate) while group scanning continues. -/
theorem C1_input_failure :
    (∀ {E : Type} (cfg : Config) (st st₁ : Lexer E) (e : E)
        (tokens : List Token) (errors : List (Error E)),
      (read_token cfg st).val = (some (.error (.Input e)), st₁) →
      read_all_tokens_go cfg st tokens errors = .error (.Input e)) ∧
    (∀ {E : Type} (cfg : Config) (tbl : List (Char × Token)) {ch : Char}
        (l c : Nat) (e : E) (r : List (Except E Char)),
      List.lookup ch tbl = none → cfg.get_field ch = some .EscapePrefix →
      (read_token cfg ⟨tbl, l, c, .ok ch :: .error e :: r⟩).val
        = (read_token cfg ⟨tbl, (bump l c ch).1, (bump l c ch).2 + 1, r⟩).val) ∧
    (∀ {E : Type} (cfg : Config) (st st₁ : Lexer E) (e : E)
        (group_tokens : List Token) (errors : List (Error E)),
      (read_token cfg st).val = (some (.error (.Input e)), st₁) →
      (read_group cfg st group_tokens errors).val
        = (read_group cfg st₁ group_tokens (errors ++ [.Input e])).val) := by
  refine ⟨?_, ?_, ?_⟩
  · intro E cfg st st₁ e tokens errors h
    exact read_all_go_input cfg h tokens errors
  · intro E cfg tbl ch l c e r hm hf
    exact read_token_val_escape_input_error cfg hm hf l c e r
  · intro E cfg st st₁ e group_tokens errors h
    exact read_group_val_err cfg h rfl group_tokens errors

theorem C1_witness :
    read_all_tokens_go default_config (⟨[], 1, 0, [Except.error 0]⟩ : Lexer Nat)
        [Token.Operator '+'] [Error.GroupEmpty 1 1 '(' ')'] = .error (.Input 0) ∧
    (read_token default_config
        (⟨[], 1, 0, [Except.ok '\\', Except.error 0, Except.ok '+']⟩ : Lexer Nat)).val
      = (read_token default_config (⟨[], 1, 2, [Except.ok '+']⟩ : Lexer Nat)).val ∧
    (read_group default_config (⟨[], 1, 0, [Except.error 0]⟩ : Lexer Nat)
        [Token.Operator '+'] []).val
      = (read_group default_config (⟨[], 1, 1, []⟩ : Lexer Nat)
          [Token.Operator '+'] [Error.Input 0]).val := by
  refine ⟨?_, ?_, ?_⟩
  · exact C1_input_failure.1 default_config _ ⟨[], 1, 1, []⟩ 0 _ _
      (read_token_val_input_error default_config [] 1 0 0 [])
  · have h := C1_input_failure.2.1 default_config [] 1 0 0 [Except.ok '+']
      (show List.lookup '\\' ([] : List (Char × Token)) = none by simp)
      (show Config.get_field default_config '\\' = some .EscapePrefix by decide)
    simpa [bump] using h
  · exact C1_input_failure.2.2 default_config _ ⟨[], 1, 1, []⟩ 0 [Token.Operator '+'] []
      (read_token_val_input_error default_config [] 1 0 0 [])

theorem C1_counterexample :
    read_all_tokens default_config [Except.ok '\\', Except.error 0] = .ok [] ∧
    read_all_tokens default_config
        [Except.ok '(', Except.error 0, Except.ok '+', Except.ok ')']
      = .error (.Group [.Group [.Input 0]]) := by
  constructor <;>
    simp [read_all_tokens, read_all_tokens_go, read_token, read_group, read_group_finish,
      next_char, Config.get_field, Config.get_value, default_config]

/-- C6: when the stream ends while a group is being read (its `read_token`
pull reports end of input before the matching close delimiter was seen),
the group read reports `Error::DelimiterUnclosed` at the current position
as the final entry of the group's aggregate; and no error returned by a
group read ever is, or contains at any depth, an `UnopenedGroupEnd`
(`Error::DelimiterUnopened`). -/
theorem C6_unclosed_group :
    (∀ {E : Type} (cfg : Config) (st st₁ : Lexer E)
        (group_tokens : List Token) (errors : List (Error E)),
      (read_token cfg st).val = (none, st₁) →
      (read_group cfg st group_tokens errors).val
        = (.error (.Group (errors ++ [.DelimiterUnclosed st₁.lineno st₁.colno
            (cfg.get_value .GroupStartDelimiter) (cfg.get_value .GroupEndDelimiter)])),
           st₁)) ∧
    (∀ {E : Type} (cfg : Config) (st st' : Lexer E) (e : Error E)
        (group_tokens : List Token) (errors : List (Error E)),
      (∀ x ∈ errors, aggs_ok x = true ∧ unopened_free x = true) →
      (read_group cfg st group_tokens errors).val = (.error e, st') →
      unopened_free e = true) := by
  constructor
  · intro E cfg st st₁ group_tokens errors h
    rw [read_group_val_none cfg h group_tokens errors]
    simp [read_group_finish]
  · intro E cfg st st' e group_tokens errors hclean h
    exact read_group_err_unopened_free cfg st group_tokens errors hclean e st' h

/-- C2 (amended): every aggregate the lexer returns (from a group read or
from the read-all loop) is non-empty, and so is every aggregate nested
inside it; but aggregates are not flattened: an inner group's aggregate
error is appended to its parent's error list as a single nested
`Error::Group` entry, both inside `read_group` and in the read-all loop,
so an aggregate can contain another aggregate. -/
theorem C2_aggregate_shape :
    (∀ {E : Type} (cfg : Config) (input : List (Except E Char)) (e : Error E),
      read_all_tokens cfg input = .error e → aggs_ok e = true) ∧
    (∀ {E : Type} (cfg : Config) (st st₁ : Lexer E) (l : List (Error E))
        (group_tokens : List Token) (errors : List (Error E)),
      (read_token cfg st).val = (some (.error (.Group l)), st₁) →
      (read_group cfg st group_tokens errors).val
        = (read_group cfg st₁ group_tokens (errors ++ [.Group l])).val) ∧
    (∀ {E : Type} (cfg : Config) (st st₁ : Lexer E) (l : List (Error E))
        (tokens : List Token) (errors : List (Error E)),
      (read_token cfg st).val = (some (.error (.Group l)), st₁) →
      read_all_tokens_go cfg st tokens errors
        = read_all_tokens_go cfg st₁ tokens (errors ++ [.Group l])) := by
  refine ⟨?_, ?_, ?_⟩
  · intro E cfg input e h
    exact read_all_go_aggs_ok cfg input.length ⟨[], 1, 0, input⟩ le_rfl [] []
      (by intro x hx; simp at hx) e h
  · intro E cfg st st₁ l group_tokens errors h
    exact read_group_val_err cfg h rfl group_tokens errors
  · intro E cfg st st₁ l tokens errors h
    exact read_all_go_err cfg h rfl tokens errors

theorem C2_counterexample :
    read_all_tokens default_config (as_char_results "(())")
      = .error (.Group [.Group [.GroupEmpty 1 3 '(' ')']]) ∧
    is_aggregate ((.Group [.GroupEmpty 1 3 '(' ')']) : Error Nat) = true := by
  constructor
  · simp [read_all_tokens, read_all_tokens_go, read_token, read_group, read_group_finish,
      next_char, Config.get_field, Config.get_value, default_config, as_char_results]
  · rfl

theorem C2_witness :
    aggs_ok ((.Group [.Group [.GroupEmpty 1 3 '(' ')']]) : Error Nat) = true ∧
    (read_group default_config (⟨[], 1, 0, as_char_results "(#)"⟩ : Lexer Nat)
        [] [Error.GroupEmpty 9 9 '(' ')']).val
      = (read_group default_config (⟨[], 1, 3, []⟩ : Lexer Nat) []
          ([Error.GroupEmpty 9 9 '(' ')'] ++ [.Group [.NumberMissing 1 2 '#']])).val ∧
    read_all_tokens_go default_config (⟨[], 1, 0, as_char_results "(#)"⟩ : Lexer Nat)
        [Token.Operator '+'] []
      = read_all_tokens_go default_config (⟨[], 1, 3, []⟩ : Lexer Nat)
          [Token.Operator '+'] ([] ++ [.Group [.NumberMissing 1 2 '#']]) := by
  have hc : (read_token default_config
      (⟨[], 1, 0, as_char_results "(#)"⟩ : Lexer Nat)).val
      = (some (.error (.Group [.NumberMissing 1 2 '#'])), ⟨[], 1, 3, []⟩) := by
    simp [read_token, read_group, read_group_finish, read_number, number_peek_stop,
      parse_usize_result, parse_usize, next_char, Config.get_field, Config.get_value,
      default_config, as_char_results]
  refine ⟨?_, ?_, ?_⟩
  · exact C2_aggregate_shape.1 default_config (as_char_results "(())") _
      (by simp [read_all_tokens, read_all_tokens_go, read_token, read_group,
        read_group_finish, next_char, Config.get_field, Config.get_value,
        default_config, as_char_results])
  · exact C2_aggregate_shape.2.1 default_config _ _ _ [] [Error.GroupEmpty 9 9 '(' ')'] hc
  · exact C2_aggregate_shape.2.2 default_config _ _ _ [Token.Operator '+'] [] hc

theorem C6_witness :
    (read_group default_config (⟨[], 1, 0, []⟩ : Lexer Nat) [Token.Operator '+'] []).val
      = (.error (.Group [.DelimiterUnclosed 1 1 '(' ')']), ⟨[], 1, 1, []⟩) ∧
    unopened_free ((.Group [.DelimiterUnclosed 1 1 '(' ')']) : Error Nat) = true := by
  have hg : (read_group default_config (⟨[], 1, 0, []⟩ : Lexer Nat)
      [Token.Operator '+'] []).val
      = (.error (.Group [.DelimiterUnclosed 1 1 '(' ')']), ⟨[], 1, 1, []⟩) := by
    have h := C6_unclosed_group.1 (E := Nat) default_config ⟨[], 1, 0, []⟩ ⟨[], 1, 1, []⟩
      [Token.Operator '+'] [] (read_token_val_nil default_config [] 1 0)
    simpa [default_config, Config.get_value] using h
  refine ⟨hg, ?_⟩
  exact C6_unclosed_group.2 (E := Nat) default_config ⟨[], 1, 0, []⟩ ⟨[], 1, 1, []⟩ _
    [Token.Operator '+'] [] (by intro x hx; simp at hx) hg

theorem keys_match_lookup_none {tbl : List (Char × Token)} {S : List Char}
    (hkm : keys_match tbl S) {ch : Char} (h : ch ∉ S) :
    List.lookup ch tbl = none := by
  rcases hq : List.lookup ch tbl with _ | t
  · rfl
  · exact absurd ((hkm ch).mp (by simp [hq])) h

theorem keys_match_lookup_some {tbl : List (Char × Token)} {S : List Char}
    (hkm : keys_match tbl S) {ch : Char} (h : ch ∈ S) :
    ∃ t, List.lookup ch tbl = some t := by
  have hs := (hkm ch).mpr h
  rcases hq : List.lookup ch tbl with _ | t
  · rw [hq] at hs; simp at hs
  · exact ⟨t, rfl⟩

theorem keys_match_insert {tbl : List (Char × Token)} {S : List Char}
    (hkm : keys_match tbl S) (sym : Char) (t : Token) :
    keys_match ((sym, t) :: tbl) (sym :: S) := by
  intro ch
  by_cases hch : ch = sym
  · subst hch
    simp [List.lookup]
  · have hbeq : (ch == sym) = false := by simp [hch]
    simp [List.lookup, hbeq, hch, hkm ch]

/-- Soundness of the well-formed-input grammar: a derivation in mode `tok`
runs `read_token` to a successful token, mode `close` to this group's
close signal (`DelimiterUnopened`), mode `fin` to a clean end of stream,
and mode `grp b` runs `read_group` (fresh error accumulator) to a
successful group, consuming exactly the derived input and realising the
derived bound set. -/
theorem scan_sound {E : Type} (cfg : Config) :
    ∀ {m : GMode} {S input S' rest : List Char}, Scan cfg m S input S' rest →
    ∀ (tbl : List (Char × Token)) (l c : Nat), keys_match tbl S →
    (match m with
     | GMode.tok => ∃ t tbl' l' c',
         (read_token cfg (⟨tbl, l, c, input.map Except.ok⟩ : Lexer E)).val
           = (some (.ok t), ⟨tbl', l', c', rest.map Except.ok⟩) ∧ keys_match tbl' S'
     | GMode.close => ∃ a b tbl' l' c',
         (read_token cfg (⟨tbl, l, c, input.map Except.ok⟩ : Lexer E)).val
           = (some (.error (.DelimiterUnopened a b (cfg.get_value .GroupStartDelimiter)
               (cfg.get_value .GroupEndDelimiter))), ⟨tbl', l', c', rest.map Except.ok⟩)
           ∧ keys_match tbl' S'
     | GMode.fin => ∃ tbl' l' c',
         (read_token cfg (⟨tbl, l, c, input.map Except.ok⟩ : Lexer E)).val
           = (none, ⟨tbl', l', c', rest.map Except.ok⟩) ∧ keys_match tbl' S'
     | GMode.grp bb => ∀ toks : List Token, (bb = false → toks ≠ []) →
         ∃ more tbl' l' c',
           (read_group cfg (⟨tbl, l, c, input.map Except.ok⟩ : Lexer E) toks []).val
             = (.ok (toks ++ more), ⟨tbl', l', c', rest.map Except.ok⟩)
           ∧ keys_match tbl' S' ∧ (bb = true → more ≠ [])) := by
  intro m S input S' rest h
  induction h with
  | bound hm =>
      rename_i S ch r
      intro tbl l c hkm
      obtain ⟨t, ht⟩ := keys_match_lookup_some hkm hm
      simp only [List.map_cons]
      exact ⟨t, tbl, (bump l c ch).1, (bump l c ch).2,
        read_token_val_bound cfg ht l c _, hkm⟩
  | oper h1 h2 =>
      rename_i S ch r
      intro tbl l c hkm
      simp only [List.map_cons]
      exact ⟨.Operator ch, tbl, (bump l c ch).1, (bump l c ch).2,
        read_token_val_operator cfg (keys_match_lookup_none hkm h1) h2 l c _, hkm⟩
  | num h1 h2 h3 h4 h5 h6 =>
      rename_i S ch ds r
      intro tbl l c hkm
      simp only [List.map_cons, List.map_append]
      have hnum := read_token_val_number cfg (E := E)
        (keys_match_lookup_none hkm h1) h2 l c (ds.map Except.ok ++ r.map Except.ok)
      rw [read_number_val_digits cfg ds h4 tbl (bump l c ch).1 (bump l c ch).2
        (r.map Except.ok) []] at hnum
      rcases hr : r with _ | ⟨x, r'⟩
      · subst hr
        simp only [List.map_nil] at hnum
        rw [List.append_nil] at hnum
        rw [read_number_val_nil] at hnum
        refine ⟨.Number (digits_to_nat ds), tbl, (bump l c ch).1,
          (bump l c ch).2 + ds.length + 1, ?_, hkm⟩
        rw [List.append_nil, hnum]
        simp [parse_usize_result, parse_usize, h3, h4, h5]
      · subst hr
        simp only [List.map_cons] at hnum
        rw [read_number_val_nondigit cfg tbl (bump l c ch).1 ((bump l c ch).2 + ds.length)
          (h6 x r' rfl) (r'.map Except.ok) ([] ++ ds)] at hnum
        refine ⟨.Number (digits_to_nat ds), tbl, (bump l c ch).1,
          (bump l c ch).2 + ds.length, ?_, hkm⟩
        rw [List.map_append, List.map_cons, hnum]
        simp [parse_usize_result, parse_usize, h3, h4, h5]
  | grp_tok h1 h2 hs IH =>
      rename_i S ch r S' rest
      intro tbl l c hkm
      simp only [List.map_cons]
      obtain ⟨more, tbl', l', c', heq, hkm', hne⟩ :=
        IH tbl (bump l c ch).1 (bump l c ch).2 hkm [] (by simp)
      simp only [List.nil_append] at heq
      have hv := read_token_val_group cfg (E := E)
        (keys_match_lookup_none hkm h1) h2 l c (r.map Except.ok)
      rw [heq] at hv
      exact ⟨.Group more, tbl', l', c', hv, hkm'⟩
  | skip_tok h1 h2 hs IH =>
      rename_i S ch r S' rest
      intro tbl l c hkm
      simp only [List.map_cons]
      obtain ⟨t, tbl', l', c', heq, hkm'⟩ := IH tbl (bump l c ch).1 (bump l c ch).2 hkm
      refine ⟨t, tbl', l', c', ?_, hkm'⟩
      rw [read_token_val_skip cfg (keys_match_lookup_none hkm h1) h2]
      exact heq
  | esc_tok h1 h2 hs IH =>
      rename_i S ch d r S' rest
      intro tbl l c hkm
      simp only [List.map_cons]
      obtain ⟨t, tbl', l', c', heq, hkm'⟩ := IH tbl
        (bump (bump l c ch).1 (bump l c ch).2 d).1
        (bump (bump l c ch).1 (bump l c ch).2 d).2 hkm
      refine ⟨t, tbl', l', c', ?_, hkm'⟩
      rw [read_token_val_escape_ok cfg (keys_match_lookup_none hkm h1) h2]
      exact heq
  | mac_tok h1 h2 hb hcont IH1 IH2 =>
      rename_i S ch sym r S₁ r₁ S' rest
      intro tbl l c hkm
      simp only [List.map_cons]
      obtain ⟨t, tbl₁, l₁, c₁, heq1, hkm1⟩ := IH1 tbl
        (bump (bump l c ch).1 (bump l c ch).2 sym).1
        (bump (bump l c ch).1 (bump l c ch).2 sym).2 hkm
      obtain ⟨t2, tbl₂, l₂, c₂, heq2, hkm2⟩ :=
        IH2 ((sym, t) :: tbl₁) l₁ c₁ (keys_match_insert hkm1 sym t)
      refine ⟨t2, tbl₂, l₂, c₂, ?_, hkm2⟩
      rw [read_token_val_macrodef cfg (keys_match_lookup_none hkm h1) h2]
      rw [read_macro_definition_val_cons]
      rw [heq1]
      exact heq2
  | close_base h1 h2 =>
      rename_i S ch r
      intro tbl l c hkm
      simp only [List.map_cons]
      exact ⟨(bump l c ch).1, (bump l c ch).2, tbl, (bump l c ch).1, (bump l c ch).2,
        read_token_val_group_end cfg (keys_match_lookup_none hkm h1) h2 l c _, hkm⟩
  | skip_close h1 h2 hs IH =>
      rename_i S ch r S' rest
      intro tbl l c hkm
      simp only [List.map_cons]
      obtain ⟨a, b, tbl', l', c', heq, hkm'⟩ := IH tbl (bump l c ch).1 (bump l c ch).2 hkm
      refine ⟨a, b, tbl', l', c', ?_, hkm'⟩
      rw [read_token_val_skip cfg (keys_match_lookup_none hkm h1) h2]
      exact heq
  | esc_close h1 h2 hs IH =>
      rename_i S ch d r S' rest
      intro tbl l c hkm
      simp only [List.map_cons]
      obtain ⟨a, b, tbl', l', c', heq, hkm'⟩ := IH tbl
        (bump (bump l c ch).1 (bump l c ch).2 d).1
        (bump (bump l c ch).1 (bump l c ch).2 d).2 hkm
      refine ⟨a, b, tbl', l', c', ?_, hkm'⟩
      rw [read_token_val_escape_ok cfg (keys_match_lookup_none hkm h1) h2]
      exact heq
  | mac_close h1 h2 hb hcont IH1 IH2 =>
      rename_i S ch sym r S₁ r₁ S' rest
      intro tbl l c hkm
      simp only [List.map_cons]
      obtain ⟨t, tbl₁, l₁, c₁, heq1, hkm1⟩ := IH1 tbl
        (bump (bump l c ch).1 (bump l c ch).2 sym).1
        (bump (bump l c ch).1 (bump l c ch).2 sym).2 hkm
      obtain ⟨a, b, tbl₂, l₂, c₂, heq2, hkm2⟩ :=
        IH2 ((sym, t) :: tbl₁) l₁ c₁ (keys_match_insert hkm1 sym t)
      refine ⟨a, b, tbl₂, l₂, c₂, ?_, hkm2⟩
      rw [read_token_val_macrodef cfg (keys_match_lookup_none hkm h1) h2]
      rw [read_macro_definition_val_cons]
      rw [heq1]
      exact heq2
  | fin_nil =>
      rename_i S
      intro tbl l c hkm
      exact ⟨tbl, l, c + 1, read_token_val_nil cfg tbl l c, hkm⟩
  | fin_esc h1 h2 =>
      rename_i S ch
      intro tbl l c hkm
      simp only [List.map_cons, List.map_nil]
      refine ⟨tbl, (bump l c ch).1, (bump l c ch).2 + 2, ?_, hkm⟩
      rw [read_token_val_escape_nil cfg (keys_match_lookup_none hkm h1) h2]
      exact read_token_val_nil cfg tbl (bump l c ch).1 ((bump l c ch).2 + 1)
  | skip_fin h1 h2 hs IH =>
      rename_i S ch r S'
      intro tbl l c hkm
      simp only [List.map_cons]
      obtain ⟨tbl', l', c', heq, hkm'⟩ := IH tbl (bump l c ch).1 (bump l c ch).2 hkm
      refine ⟨tbl', l', c', ?_, hkm'⟩
      rw [read_token_val_skip cfg (keys_match_lookup_none hkm h1) h2]
      exact heq
  | esc_fin h1 h2 hs IH =>
      rename_i S ch d r S'
      intro tbl l c hkm
      simp only [List.map_cons]
      obtain ⟨tbl', l', c', heq, hkm'⟩ := IH tbl
        (bump (bump l c ch).1 (bump l c ch).2 d).1
        (bump (bump l c ch).1 (bump l c ch).2 d).2 hkm
      refine ⟨tbl', l', c', ?_, hkm'⟩
      rw [read_token_val_escape_ok cfg (keys_match_lookup_none hkm h1) h2]
      exact heq
  | mac_fin h1 h2 hb hcont IH1 IH2 =>
      rename_i S ch sym r S₁ r₁ S'
      intro tbl l c hkm
      simp only [List.map_cons]
      obtain ⟨t, tbl₁, l₁, c₁, heq1, hkm1⟩ := IH1 tbl
        (bump (bump l c ch).1 (bump l c ch).2 sym).1
        (bump (bump l c ch).1 (bump l c ch).2 sym).2 hkm
      obtain ⟨tbl₂, l₂, c₂, heq2, hkm2⟩ :=
        IH2 ((sym, t) :: tbl₁) l₁ c₁ (keys_match_insert hkm1 sym t)
      refine ⟨tbl₂, l₂, c₂, ?_, hkm2⟩
      rw [read_token_val_macrodef cfg (keys_match_lookup_none hkm h1) h2]
      rw [read_macro_definition_val_cons]
      rw [heq1]
      exact heq2
  | grp_close hc IH =>
      rename_i S input S' rest
      intro tbl l c hkm toks hne0
      obtain ⟨a, b, tbl', l', c', heq, hkm'⟩ := IH tbl l c hkm
      refine ⟨[], tbl', l', c', ?_, hkm', by simp⟩
      rw [read_group_val_close cfg heq toks []]
      simp [read_group_finish, hne0 rfl]
  | grp_cons ht hg IH1 IH2 =>
      rename_i S input S₁ r₁ b S' rest
      intro tbl l c hkm toks hne0
      obtain ⟨t, tbl₁, l₁, c₁, heq1, hkm1⟩ := IH1 tbl l c hkm
      obtain ⟨more₂, tbl₂, l₂, c₂, heq2, hkm2, -⟩ :=
        IH2 tbl₁ l₁ c₁ hkm1 (toks ++ [t]) (by simp)
      refine ⟨t :: more₂, tbl₂, l₂, c₂, ?_, hkm2, by simp⟩
      rw [read_group_val_token cfg heq1 toks []]
      rw [heq2]
      simp

theorem scan_all_sound {E : Type} (cfg : Config) {S input : List Char}
    (h : ScanAll cfg S input) :
    ∀ (tbl : List (Char × Token)) (l c : Nat) (tokens : List Token), keys_match tbl S →
    ∃ more, read_all_tokens_go cfg (⟨tbl, l, c, input.map Except.ok⟩ : Lexer E) tokens []
      = .ok (tokens ++ more) := by
  induction h with
  | fin hfin =>
      intro tbl l c tokens hkm
      obtain ⟨tbl', l', c', heq, -⟩ := scan_sound cfg hfin tbl l c hkm
      refine ⟨[], ?_⟩
      rw [read_all_go_none cfg heq tokens []]
      simp
  | cons htok hrest IH =>
      intro tbl l c tokens hkm
      obtain ⟨t, tbl', l', c', heq, hkm'⟩ := scan_sound cfg htok tbl l c hkm
      rw [read_all_go_token cfg heq tokens []]
      obtain ⟨more, hm⟩ := IH tbl' l' c' (tokens ++ [t]) hkm'
      refine ⟨t :: more, ?_⟩
      rw [hm]
      simp

/-- C7 (amended): every input whose group delimiters are balanced and
matched, whose prefixes are all well formed (each number prefix followed
by at least one digit denoting a value within the machine integer, each
macro definition complete), and whose groups each contain at least one
token — as captured by the `Scan`/`ScanAll` grammar — tokenizes with no
errors, for every symbol configuration. -/
theorem C7_wellformed_ok {E : Type} (cfg : Config) (input : List Char)
    (h : ScanAll cfg [] input) :
    ∃ tokens, read_all_tokens cfg (input.map Except.ok : List (Except E Char))
      = .ok tokens := by
  obtain ⟨more, hm⟩ := scan_all_sound cfg h [] 1 0 []
    (by intro ch; simp [List.lookup])
  exact ⟨more, by simpa using hm⟩

theorem C7_witness :
    ∃ tokens, read_all_tokens default_config
      ((['(', '+', ')'].map Except.ok) : List (Except Nat Char)) = .ok tokens := by
  refine C7_wellformed_ok (E := Nat) default_config ['(', '+', ')'] ?_
  refine ScanAll.cons (Scan.grp_tok (by simp) (by decide)
    (Scan.grp_cons (Scan.oper (by simp) (by decide))
      (Scan.grp_close (Scan.close_base (by simp) (by decide))))) ?_
  exact ScanAll.fin Scan.fin_nil

theorem C7_counterexample :
    read_all_tokens default_config (as_char_results "()")
      = .error (.Group [.GroupEmpty 1 2 '(' ')']) ∧
    read_all_tokens default_config (as_char_results "#99999999999999999999")
      = .error (.Group [.NumberMissing 1 22 '#']) := by
  constructor <;>
    simp [read_all_tokens, read_all_tokens_go, read_token, read_group, read_group_finish,
      read_number, number_peek_stop, parse_usize_result, parse_usize, digits_to_nat,
      USIZE_MAX, next_char, Config.get_field, Config.get_value, default_config,
      as_char_results]

end Bfup
